import Mathlib

/-!
Verification of the `ma-gym` TrafficJunction environment
(`ma_gym/envs/traffic_junction/traffic_junction.py`).

The Python class is shallowly embedded: the mutable `self` object becomes an
explicit `State` record, the process-wide `random` module becomes explicit
choice streams passed into `reset`/`step`, and Python exceptions become an
explicit `raised` constructor carrying the object state at the moment the
exception escapes.  Grid cells (strings `'W'`, `'0'`, `'A<k+1>'` in the
source) become the inductive `Cell`; rewards (Python floats with exact
decimal values) become rationals.
-/

namespace TJ

/-- Grid cell content.  The source stores strings: `'W'` (wall), `'0'`
(empty road), `'A' + str(i+1)` (occupied by agent slot `i`). -/
inductive Cell where
  | wall : Cell
  | empty : Cell
  | agent : Nat → Cell
deriving DecidableEq, Repr

/-- `cell.find('A') > -1` in the source: true iff the cell holds a car. -/
def isAgentCell : Cell → Bool
  | .agent _ => true
  | _ => false

/-- Construction-time configuration (`__init__` arguments).  The source sets
`self.n_agents = n_max`, so a single field stands for both; the separate
`n_agents` constructor argument is stored unused as `_inital_agents`. -/
structure Config where
  rows : Nat
  cols : Nat
  n_max : Nat
  rcoll : ℚ
  arrive_prob : ℚ
  full_observable : Bool
deriving Repr

/-- `self.n_agents` (equal to `n_max` in `__init__`). -/
def nAgents (cfg : Config) : Nat := cfg.n_max

/-- `self._grid_shape[0] // 2` as an integer. -/
def halfR (cfg : Config) : Int := ((cfg.rows / 2 : Nat) : Int)

/-- `self._grid_shape[1] // 2` as an integer. -/
def halfC (cfg : Config) : Int := ((cfg.cols / 2 : Nat) : Int)

/-- `self._entry_gates`:
`[(rows//2, 0), (rows-1, cols//2), (0, cols//2 - 1), (rows//2 - 1, cols-1)]`. -/
def entry_gates (cfg : Config) : List (Int × Int) :=
  [(halfR cfg, 0), ((cfg.rows : Int) - 1, halfC cfg),
   (0, halfC cfg - 1), (halfR cfg - 1, (cfg.cols : Int) - 1)]

/-- `self._destination`:
`[(rows//2, cols-1), (0, cols//2), (rows-1, cols//2 - 1), (rows//2 - 1, 0)]`. -/
def destinations (cfg : Config) : List (Int × Int) :=
  [(halfR cfg, (cfg.cols : Int) - 1), (0, halfC cfg),
   ((cfg.rows : Int) - 1, halfC cfg - 1), (halfR cfg - 1, 0)]

/-- The keys of `self._route_vectors`, in dict insertion order; note the
source uses `grid_shape[0]` for every coordinate here. -/
def gate_key (cfg : Config) : Fin 4 → Int × Int
  | 0 => (halfR cfg, 0)
  | 1 => ((cfg.rows : Int) - 1, halfR cfg)
  | 2 => (0, halfR cfg - 1)
  | 3 => (halfR cfg - 1, (cfg.rows : Int) - 1)

/-- The values of `self._route_vectors` (initial direction per gate). -/
def gate_dir : Fin 4 → Int × Int
  | 0 => (0, 1)
  | 1 => (-1, 0)
  | 2 => (1, 0)
  | 3 => (0, -1)

/-- `self._turning_places`, a dict keyed by direction vectors; the source
uses `grid_shape[0]` for every coordinate.  A missing key is a Python
`KeyError`; lookup therefore returns an `Option`. -/
def turning_places (cfg : Config) (d : Int × Int) :
    Option ((Int × Int) × (Int × Int)) :=
  if d = ((0 : Int), (1 : Int)) then
    some ((halfR cfg, halfR cfg - 1), (halfR cfg, halfR cfg))
  else if d = ((-1 : Int), (0 : Int)) then
    some ((halfR cfg, halfR cfg), (halfR cfg - 1, halfR cfg))
  else if d = ((1 : Int), (0 : Int)) then
    some ((halfR cfg - 1, halfR cfg - 1), (halfR cfg, halfR cfg - 1))
  else if d = ((0 : Int), (-1 : Int)) then
    some ((halfR cfg - 1, halfR cfg), (halfR cfg - 1, halfR cfg - 1))
  else none

/-- The effective `__create_grid` (the second definition in the source,
which overrides the first): every cell is wall except the two central
rows (`rows//2 - 1`, `rows//2`) and two central columns
(`cols//2 - 1`, `cols//2`), which are empty road. -/
def create_grid (cfg : Config) : Int × Int → Cell := fun q =>
  if q.1 = halfR cfg - 1 ∨ q.1 = halfR cfg ∨ q.2 = halfC cfg - 1 ∨ q.2 = halfC cfg
  then Cell.empty else Cell.wall

/-- The mutable object state of a `TrafficJunction` instance.  Per-slot
Python lists/dicts become total functions read at indices `< n_agents`.
`np_seed` models `self.np_random` as set by `seed`; the simulation never
reads it (it draws from the global `random` module). -/
structure State where
  stepCount : Nat
  currCarsCount : Int
  totalReward : Nat → ℚ
  turned : Nat → Bool
  routes : Nat → Int
  dirs : Nat → Int × Int
  pos : Nat → Int × Int
  onRoad : Nat → Bool
  dones : Nat → Bool
  grid : Int × Int → Cell
  npSeed : Option Nat

/-- Write one grid cell (`self._full_obs[p[0]][p[1]] = v`). -/
def grid_set (g : Int × Int → Cell) (p : Int × Int) (v : Cell) :
    Int × Int → Cell :=
  fun q => if q = p then v else g q

/-- `is_valid`. -/
def is_valid (cfg : Config) (p : Int × Int) : Bool :=
  decide (0 ≤ p.1 ∧ p.1 < (cfg.rows : Int) ∧ 0 ≤ p.2 ∧ p.2 < (cfg.cols : Int))

/-- `_is_cell_vacant`. -/
def is_cell_vacant (cfg : Config) (s : State) (p : Int × Int) : Bool :=
  is_valid cfg p && decide (s.grid p = Cell.empty)

/-- `__check_colision`. -/
def check_colision (cfg : Config) (s : State) (p : Int × Int) : Bool :=
  is_valid cfg p && isAgentCell (s.grid p)

/-- `__update_agent_view`: mark the agent's recorded position occupied. -/
def update_agent_view (s : State) (i : Nat) : State :=
  { s with grid := grid_set s.grid (s.pos i) (Cell.agent i) }

/-- `__is_gate_free`: some entry gate is not among the recorded positions
of any slot (`self.agent_pos.values()`, stale entries included). -/
def is_gate_free (cfg : Config) (s : State) : Bool :=
  (entry_gates cfg).any fun g =>
    (List.range (nAgents cfg)).all fun i => decide (s.pos i ≠ g)

/-- Componentwise tuple addition (`curr_pos[i] + direction[i]`). -/
def padd (p d : Int × Int) : Int × Int := (p.1 + d.1, p.2 + d.2)

/-- `__get_next_move` for routes 2/3: the lateral-turn transform of the
current direction vector. -/
def get_next_move (route : Int) (d : Int × Int) : Int × Int :=
  let sig : Int :=
    if route = 2 then (if d.2 ≠ 0 then 1 else -1)
    else (if d.2 ≠ 0 then -1 else 1)
  if d.1 = 0 then (d.2 * sig, 0) else (0, d.1 * sig)

/-- `turn_pos[route - 2]` for `route ∈ {2,3}`; other route values cannot
occur for an on-road car (routes are drawn from `{1,2,3}` at spawn). -/
def turn_cell (route : Int) (tp : (Int × Int) × (Int × Int)) :
    Option (Int × Int) :=
  if route = 2 then some tp.1 else if route = 3 then some tp.2 else none

/-- The tail of `__update_agent_pos` shared by every branch that computed a
candidate `next_pos`: collision check, then vacancy-checked move.  The
grid-write order follows the source: record the new position, empty the
old cell, then mark the new cell through `__update_agent_view`. -/
def moveResolve (cfg : Config) (s : State) (i : Nat) (curr next : Int × Int) :
    Except Unit (State × ℚ) :=
  if check_colision cfg s next then .ok (s, cfg.rcoll)
  else if is_cell_vacant cfg s next then
    let s1 : State := { s with pos := fun k => if k = i then next else s.pos k }
    let s2 : State := { s1 with grid := grid_set s1.grid curr Cell.empty }
    .ok (update_agent_view s2 i, 0)
  else .ok (s, 0)

/-- `__update_agent_pos`.  `move = 0` is GAS, `move = 1` is BRAKE, anything
else raises `Exception('Action Not found!')` (modelled as `.error ()`);
so do the `KeyError`/index error of the turning-place lookups, which in
the source would also escape `step`.  All raises happen before any
mutation for this agent.  The source's stray pure call
`self.__get_next_move(1, 3, curr_pos, agent_i)` discards its result and
is omitted. -/
def update_agent_pos (cfg : Config) (s : State) (i : Nat) (move : Nat) :
    Except Unit (State × ℚ) :=
  let curr := s.pos i
  let route := s.routes i
  match move with
  | 0 =>
    if route = 1 then
      moveResolve cfg s i curr (padd curr (s.dirs i))
    else
      match turning_places cfg (s.dirs i) with
      | none => .error ()
      | some tp =>
        match turn_cell route tp with
        | none => .error ()
        | some tc =>
          if curr = tc ∧ s.turned i = false then
            let nd := get_next_move route (s.dirs i)
            let s1 : State :=
              { s with dirs := fun k => if k = i then nd else s.dirs k,
                       turned := fun k => if k = i then true else s.turned k }
            moveResolve cfg s1 i curr (padd curr nd)
          else
            moveResolve cfg s i curr (padd curr (s.dirs i))
  | 1 => .ok (s, 0)
  | _ => .error ()

/-- The movement pass of `step`: process `(agent_i, action)` pairs in slot
order, skipping agents that are done or not on the road, accumulating
`rewards[agent_i] += col_reward`.  An escaped exception yields
`.error` carrying the object state at the raise. -/
def movePass (cfg : Config) :
    State → (Nat → ℚ) → Nat → List Nat → Except State (State × (Nat → ℚ))
  | s, rew, _, [] => .ok (s, rew)
  | s, rew, i, a :: rest =>
    if s.dones i = false ∧ s.onRoad i = true then
      match update_agent_pos cfg s i a with
      | .error _ => .error s
      | .ok (s1, r) =>
          movePass cfg s1 (fun k => if k = i then rew k + r else rew k)
            (i + 1) rest
    else movePass cfg s rew (i + 1) rest

/-- The body of the `while True` spawn loop, shared by `__init_full_obs`
(`setTurned = false`, `fallbk = true`) and the arrival pass of `step`
(`setTurned = true`, `fallbk = false`).  Each iteration draws a gate key
(`random.choice(list(self._route_vectors.keys()))`), records its direction,
and either places the car at the vacant gate (consuming a
`random.randint(1, 3)` route draw), parks it off-road at `(0, 0)` when
`curr_cars_count >= 4` (init only), or retries.  Exhausting the supplied
choice prefix returns `none` (the Python loop would keep drawing). -/
def spawnLoop (cfg : Config) (i : Nat) (setTurned fallbk : Bool) :
    State → List (Fin 4) → List (Fin 3) →
    Option (State × List (Fin 4) × List (Fin 3))
  | _, [], _ => none
  | s, k :: gs, rs =>
    let p := gate_key cfg k
    let s1 : State :=
      { s with dirs := fun j => if j = i then gate_dir k else s.dirs j }
    if is_cell_vacant cfg s1 p then
      match rs with
      | [] => none
      | rt :: rs1 =>
        let s2 : State :=
          { s1 with pos := fun j => if j = i then p else s1.pos j,
                    currCarsCount := s1.currCarsCount + 1,
                    onRoad := fun j => if j = i then true else s1.onRoad j,
                    turned :=
                      if setTurned then
                        fun j => if j = i then false else s1.turned j
                      else s1.turned,
                    routes :=
                      fun j => if j = i then ((rt : Nat) : Int) + 1
                               else s1.routes j }
        some (update_agent_view s2 i, gs, rs1)
    else if fallbk ∧ 4 ≤ s1.currCarsCount then
      let s2 : State :=
        { s1 with pos := fun j => if j = i then ((0 : Int), (0 : Int))
                                  else s1.pos j }
      some (update_agent_view s2 i, gs, rs)
    else spawnLoop cfg i setTurned fallbk s1 gs rs

/-- The per-agent loop of `__init_full_obs`. -/
def initFold (cfg : Config) :
    State → List Nat → List (Fin 4) → List (Fin 3) → Option State
  | s, [], _, _ => some s
  | s, i :: rest, gs, rs =>
    match spawnLoop cfg i false true s gs rs with
    | none => none
    | some (s1, gs1, rs1) => initFold cfg s1 rest gs1 rs1

/-- `__init_full_obs`: rebuild the grid from the topology, then place every
agent (the base-image drawing is rendering and is omitted). -/
def init_full_obs (cfg : Config) (s : State)
    (gs : List (Fin 4)) (rs : List (Fin 3)) : Option State :=
  initFold cfg { s with grid := create_grid cfg } (List.range (nAgents cfg)) gs rs

/-- The per-agent loop of the arrival pass: each inactive agent spawns while
`__is_gate_free()` holds on the current (already updated) state. -/
def arrivalFold (cfg : Config) :
    State → List Nat → List (Fin 4) → List (Fin 3) → Option State
  | s, [], _, _ => some s
  | s, i :: rest, gs, rs =>
    if is_gate_free cfg s = true ∧ s.onRoad i = false then
      match spawnLoop cfg i true false s gs rs with
      | none => none
      | some (s1, gs1, rs1) => arrivalFold cfg s1 rest gs1 rs1
    else arrivalFold cfg s rest gs rs

/-- The arrival pass of `step`: one `random.uniform(0, 1)` draw `u` gates
the whole pass together with the capacity check. -/
def arrivalPass (cfg : Config) (s : State) (u : ℚ)
    (gs : List (Fin 4)) (rs : List (Fin 3)) : Option State :=
  if u < cfg.arrive_prob ∧ s.currCarsCount < (cfg.n_max : Int) then
    arrivalFold cfg s (List.range (nAgents cfg)) gs rs
  else some s

/-- One iteration of the departure pass (`__reached_dest` plus the caller's
updates).  Note the source does not check `on_the_road`: any slot whose
recorded position lies in `self._destination` empties that cell, is marked
off-road, and decrements `curr_cars_count`. -/
def depStep (cfg : Config) (s : State) (i : Nat) : State :=
  if s.pos i ∈ destinations cfg then
    { s with grid := grid_set s.grid (s.pos i) Cell.empty,
             onRoad := fun j => if j = i then false else s.onRoad j,
             currCarsCount := s.currCarsCount - 1 }
  else s

/-- The departure pass of `step`. -/
def departurePass (cfg : Config) (s : State) : State :=
  (List.range (nAgents cfg)).foldl (depStep cfg) s

/-- The termination check: at `self._max_steps = 100` every slot is marked
done. -/
def done_check (cfg : Config) (s : State) : State :=
  if 100 ≤ s.stepCount then
    { s with dones := fun i => if i < nAgents cfg then true else s.dones i }
  else s

/-- Reward finalization: every car still on the road accrues
`- 0.01 * self._step_count` (written `mkRat (-1) 100 * step_count`, the
exact value), and each slot's step reward is accumulated into
`self._total_episode_reward`. -/
def finalizePass (cfg : Config) (s : State) (rew : Nat → ℚ) :
    State × (Nat → ℚ) :=
  let rew1 : Nat → ℚ := fun i =>
    if i < nAgents cfg ∧ s.onRoad i = true then
      rew i + mkRat (-1) 100 * (s.stepCount : ℚ)
    else rew i
  ({ s with totalReward := fun i =>
        if i < nAgents cfg then s.totalReward i + rew1 i
        else s.totalReward i },
   rew1)

/-- `range(lo, hi)` over integers. -/
def intRange (lo hi : Int) : List Int :=
  (List.range (hi - lo).toNat).map fun k : Nat => lo + (k : Int)

/-- The clipped absolute row range of the 3x3 view in `get_agent_obs`:
`range(max(0, pos[0] - 1), min(pos[0] + 1 + 1, self._grid_shape[0]))`. -/
def mask_rows (cfg : Config) (p : Int × Int) : List Int :=
  intRange (max 0 (p.1 - 1)) (min (p.1 + 2) (cfg.rows : Int))

/-- Likewise for columns. -/
def mask_cols (cfg : Config) (p : Int × Int) : List Int :=
  intRange (max 0 (p.2 - 1)) (min (p.2 + 2) (cfg.cols : Int))

/-- The `np.zeros((3,3))` view array after the nested loops of
`get_agent_obs`: entry `(row - (pos[0]-1), col - (pos[1]-1))` is set to 1
for every in-range cell holding a car. -/
def obs_mask (cfg : Config) (g : Int × Int → Cell) (p : Int × Int) :
    Nat × Nat → ℚ :=
  (mask_rows cfg p).foldl
    (fun m row =>
      (mask_cols cfg p).foldl
        (fun m1 col =>
          if isAgentCell (g (row, col)) then
            Function.update m1 ((row - (p.1 - 1)).toNat, (col - (p.2 - 1)).toNat)
              (1 : ℚ)
          else m1)
        m)
    (fun _ => 0)

/-- Row-major flattening order of the 3x3 array. -/
def mask_keys : List (Nat × Nat) :=
  [(0, 0), (0, 1), (0, 2), (1, 0), (1, 1), (1, 2), (2, 0), (2, 1), (2, 2)]

/-- One agent's observation vector in `get_agent_obs`, built only from the
slot index, the recorded position and the grid: one-hot id, flattened 3x3
view with the center forced to 0, then `pos[0] / rows` and
`pos[1] / (cols - 1)` (`mkRat a b` is the exact rational `a / b`; the
source's Python float divisions are modelled exactly; as in the source,
`cols - 1` assumes at least one column). -/
def agent_obs_of (cfg : Config) (g : Int × Int → Cell) (p : Int × Int)
    (i : Nat) : List ℚ :=
  let hot := (List.range (nAgents cfg)).map fun k => if k = i then (1 : ℚ) else 0
  let m := Function.update (obs_mask cfg g p) (1, 1) (0 : ℚ)
  hot ++ mask_keys.map m ++
    [mkRat p.1 cfg.rows, mkRat p.2 (cfg.cols - 1)]

/-- `get_agent_obs`: per-slot vectors; in full-observability mode all of
them are concatenated (slot order) and broadcast to every agent. -/
def get_agent_obs (cfg : Config) (s : State) : List (List ℚ) :=
  let base := (List.range (nAgents cfg)).map fun i =>
    agent_obs_of cfg s.grid (s.pos i) i
  if cfg.full_observable then
    (List.range (nAgents cfg)).map fun _ => base.flatten
  else base

/-- Outcome of one `step` call: `raised` carries the object state visible
to the caller after an escaped exception; `stuck` means the explicit
random-choice prefix ran out inside a spawn loop (the Python loop would
keep drawing, possibly forever). -/
inductive StepRes where
  | stuck : StepRes
  | raised : State → StepRes
  | ok : State → List (List ℚ) → List ℚ → List Bool → StepRes

/-- `step(agents_action)`.  The length assert precedes every mutation;
the step counter is incremented before the movement pass; then arrivals,
departures, the termination check and reward finalization, in source
order. -/
def step (cfg : Config) (s : State) (acts : List Nat) (u : ℚ)
    (gs : List (Fin 4)) (rs : List (Fin 3)) : StepRes :=
  if acts.length ≠ nAgents cfg then .raised s
  else
    let s1 : State := { s with stepCount := s.stepCount + 1 }
    match movePass cfg s1 (fun _ => 0) 0 acts with
    | .error se => .raised se
    | .ok (s2, rew1) =>
      match arrivalPass cfg s2 u gs rs with
      | none => .stuck
      | some s3 =>
        let s4 := departurePass cfg s3
        let s5 := done_check cfg s4
        let fr := finalizePass cfg s5 rew1
        .ok fr.1 (get_agent_obs cfg fr.1)
          ((List.range (nAgents cfg)).map fr.2)
          ((List.range (nAgents cfg)).map fr.1.dones)

/-- `reset()`: zero the counters and flags, then `__init_full_obs`.  The
trailing sampling loop in the source draws `random.random()` values whose
results are discarded (`pass`), so it is omitted.  Returns the fresh
observations. -/
def reset (cfg : Config) (s : State) (gs : List (Fin 4)) (rs : List (Fin 3)) :
    Option (State × List (List ℚ)) :=
  let s0 : State :=
    { s with totalReward := fun _ => 0,
             stepCount := 0,
             dones := fun _ => false,
             onRoad := fun _ => false,
             turned := fun _ => false,
             currCarsCount := 0 }
  (init_full_obs cfg s0 gs rs).map fun s1 => (s1, get_agent_obs cfg s1)

/-- `seed(n)`: stores a fresh `np_random` source derived from `n`.  The
gym helpers live outside this repository; only the state effect is
modelled.  Crucially, nothing else in the class ever reads `npSeed`. -/
def seed_env (n : Nat) (s : State) : State := { s with npSeed := some n }

/-- The object state right after `__init__` (before any `reset`):
positions are `None` (modelled `(0,0)`), routes are `-1`, directions are
the integer `0` (modelled `(0,0)`), the grid comes from `__create_grid`.
The source leaves `_step_count`, `_total_episode_reward` and
`_agent_dones` as `None` until `reset` assigns them; they are modelled as
`0` / `0` / `false`, so this state is faithful only along code paths that
go through `reset` before reading them -- calling the source's `step`
before any `reset` dies on `None + 1`, which this model does not
reproduce, and accordingly no `step` theorem starts from this state. -/
def initState (cfg : Config) : State :=
  { stepCount := 0
    currCarsCount := 0
    totalReward := fun _ => 0
    turned := fun _ => false
    routes := fun _ => -1
    dirs := fun _ => (0, 0)
    pos := fun _ => (0, 0)
    onRoad := fun _ => false
    dones := fun _ => false
    grid := create_grid cfg
    npSeed := none }

/-- The random draws consumed by one `step` call. -/
structure StepRand where
  acts : List Nat
  u : ℚ
  gs : List (Fin 4)
  rs : List (Fin 3)

/-- Iterate `step`, requiring every call to return normally. -/
def runSteps (cfg : Config) : State → List StepRand → Option State
  | s, [] => some s
  | s, e :: rest =>
    match step cfg s e.acts e.u e.gs e.rs with
    | .ok s1 _ _ _ => runSteps cfg s1 rest
    | _ => none

/-- Number of grid cells currently marked as holding a car. -/
def occupiedCount (cfg : Config) (s : State) : Nat :=
  ((Finset.range cfg.rows ×ˢ Finset.range cfg.cols).filter fun rc =>
    isAgentCell (s.grid ((rc.1 : Int), (rc.2 : Int))) = true).card

/-- Number of agent slots with `on_the_road` set. -/
def liveCount (cfg : Config) (s : State) : Nat :=
  ((Finset.range (nAgents cfg)).filter fun i => s.onRoad i = true).card

/-- Slot id stored in an occupied cell. -/
def cellAgent : Cell → Nat
  | .agent j => j
  | _ => 0

/-- Representation invariant tying the car registry to the occupancy grid:
every active car sits on a valid cell that the grid marks with its slot id,
and every agent-marked valid cell is the recorded position of an active
car. -/
structure WF (cfg : Config) (s : State) : Prop where
  pos_ok : ∀ i, i < nAgents cfg → s.onRoad i = true →
    is_valid cfg (s.pos i) = true ∧ s.grid (s.pos i) = Cell.agent i
  grid_ok : ∀ p, is_valid cfg p = true → ∀ j, s.grid p = Cell.agent j →
    j < nAgents cfg ∧ s.onRoad j = true ∧ s.pos j = p

theorem is_valid_iff (cfg : Config) (p : Int × Int) :
    is_valid cfg p = true ↔
      0 ≤ p.1 ∧ p.1 < (cfg.rows : Int) ∧ 0 ≤ p.2 ∧ p.2 < (cfg.cols : Int) := by
  simp [is_valid]

theorem WF.occ_eq_live (cfg : Config) (s : State) (h : WF cfg s) :
    occupiedCount cfg s = liveCount cfg s := by
  classical
  unfold occupiedCount liveCount
  refine Finset.card_bij'
    (fun rc _ => cellAgent (s.grid ((rc.1 : Int), (rc.2 : Int))))
    (fun i _ => ((s.pos i).1.toNat, (s.pos i).2.toNat)) ?_ ?_ ?_ ?_
  · intro rc hrc
    simp only [Finset.mem_filter, Finset.mem_product, Finset.mem_range] at hrc
    obtain ⟨⟨h1, h2⟩, hag⟩ := hrc
    obtain ⟨j, hj⟩ : ∃ j, s.grid ((rc.1 : Int), (rc.2 : Int)) = Cell.agent j := by
      cases hcell : s.grid ((rc.1 : Int), (rc.2 : Int)) with
      | wall => rw [hcell] at hag; simp [isAgentCell] at hag
      | empty => rw [hcell] at hag; simp [isAgentCell] at hag
      | agent j => exact ⟨j, rfl⟩
    have hv : is_valid cfg ((rc.1 : Int), (rc.2 : Int)) = true := by
      rw [is_valid_iff]
      refine ⟨Int.ofNat_nonneg _, ?_, Int.ofNat_nonneg _, ?_⟩ <;> exact_mod_cast (by omega)
    obtain ⟨hjn, hjon, _⟩ := h.grid_ok _ hv j hj
    simp only [Finset.mem_filter, Finset.mem_range]
    rw [hj]
    exact ⟨hjn, by simpa [cellAgent] using hjon⟩
  · intro i hi
    simp only [Finset.mem_filter, Finset.mem_range] at hi
    obtain ⟨hin, hon⟩ := hi
    obtain ⟨hv, _⟩ := h.pos_ok i hin hon
    rw [is_valid_iff] at hv
    simp only [Finset.mem_filter, Finset.mem_product, Finset.mem_range]
    have e1 : (((s.pos i).1.toNat : Int)) = (s.pos i).1 := Int.toNat_of_nonneg hv.1
    have e2 : (((s.pos i).2.toNat : Int)) = (s.pos i).2 := Int.toNat_of_nonneg hv.2.2.1
    constructor
    · constructor
      · have := hv.2.1; omega
      · have := hv.2.2.2; omega
    · have hpair : (((s.pos i).1.toNat : Int), ((s.pos i).2.toNat : Int)) = s.pos i := by
        rw [e1, e2]
      rw [hpair, (h.pos_ok i hin hon).2]
      simp [isAgentCell]
  · intro rc hrc
    simp only [Finset.mem_filter, Finset.mem_product, Finset.mem_range] at hrc
    obtain ⟨⟨h1, h2⟩, hag⟩ := hrc
    obtain ⟨j, hj⟩ : ∃ j, s.grid ((rc.1 : Int), (rc.2 : Int)) = Cell.agent j := by
      cases hcell : s.grid ((rc.1 : Int), (rc.2 : Int)) with
      | wall => rw [hcell] at hag; simp [isAgentCell] at hag
      | empty => rw [hcell] at hag; simp [isAgentCell] at hag
      | agent j => exact ⟨j, rfl⟩
    have hv : is_valid cfg ((rc.1 : Int), (rc.2 : Int)) = true := by
      rw [is_valid_iff]
      refine ⟨Int.ofNat_nonneg _, ?_, Int.ofNat_nonneg _, ?_⟩ <;> exact_mod_cast (by omega)
    obtain ⟨hjn, hjon, hjp⟩ := h.grid_ok _ hv j hj
    simp only [hj, cellAgent, hjp]
    simp
  · intro i hi
    simp only [Finset.mem_filter, Finset.mem_range] at hi
    obtain ⟨hin, hon⟩ := hi
    obtain ⟨hv, hg⟩ := h.pos_ok i hin hon
    rw [is_valid_iff] at hv
    have e1 : (((s.pos i).1.toNat : Int)) = (s.pos i).1 := Int.toNat_of_nonneg hv.1
    have e2 : (((s.pos i).2.toNat : Int)) = (s.pos i).2 := Int.toNat_of_nonneg hv.2.2.1
    have hpair : (((s.pos i).1.toNat : Int), ((s.pos i).2.toNat : Int)) = s.pos i := by
      rw [e1, e2]
    simp only [hpair, hg, cellAgent]

theorem is_cell_vacant_iff (cfg : Config) (s : State) (p : Int × Int) :
    is_cell_vacant cfg s p = true ↔
      is_valid cfg p = true ∧ s.grid p = Cell.empty := by
  simp [is_cell_vacant]

theorem check_colision_iff (cfg : Config) (s : State) (p : Int × Int) :
    check_colision cfg s p = true ↔
      is_valid cfg p = true ∧ isAgentCell (s.grid p) = true := by
  simp [check_colision]

theorem grid_set_same (g : Int × Int → Cell) (p : Int × Int) (v : Cell) :
    grid_set g p v p = v := by
  simp [grid_set]

theorem grid_set_other (g : Int × Int → Cell) (p : Int × Int) (v : Cell)
    (q : Int × Int) (h : q ≠ p) : grid_set g p v q = g q := by
  simp [grid_set, h]

/-- Moving agent `i` from its recorded cell into a vacant cell `next`
preserves the registry/grid invariant (stated component-wise so it applies
to whatever record term the move produced). -/
theorem WF_move (cfg : Config) (s t : State) (i : Nat) (next : Int × Int)
    (hW : WF cfg s) (hi : i < nAgents cfg) (hon : s.onRoad i = true)
    (hvalidn : is_valid cfg next = true) (hemptyn : s.grid next = Cell.empty)
    (hpos : t.pos = fun k => if k = i then next else s.pos k)
    (hgrid : t.grid =
      grid_set (grid_set s.grid (s.pos i) Cell.empty) next (Cell.agent i))
    (honr : t.onRoad = s.onRoad) : WF cfg t := by
  obtain ⟨hvalidc, hagc⟩ := hW.pos_ok i hi hon
  have hcn : s.pos i ≠ next := by
    intro hcn; rw [hcn, hemptyn] at hagc; cases hagc
  constructor
  · intro k hk honk
    rw [honr] at honk
    rw [hpos, hgrid]
    by_cases hki : k = i
    · subst hki
      simp only [if_pos rfl]
      exact ⟨hvalidn, grid_set_same _ _ _⟩
    · simp only [if_neg hki]
      obtain ⟨hvk, hgk⟩ := hW.pos_ok k hk honk
      have h1 : s.pos k ≠ next := by
        intro he; rw [he, hemptyn] at hgk; cases hgk
      have h2 : s.pos k ≠ s.pos i := by
        intro he; rw [he, hagc] at hgk
        exact hki (Cell.agent.inj hgk).symm
      rw [grid_set_other _ _ _ _ h1, grid_set_other _ _ _ _ h2]
      exact ⟨hvk, hgk⟩
  · intro p hp j hj
    rw [hgrid] at hj
    rw [hpos, honr]
    by_cases hpn : p = next
    · rw [hpn, grid_set_same] at hj
      have hji : j = i := (Cell.agent.inj hj).symm
      subst hji
      simp only [if_pos rfl]
      exact ⟨hi, hon, hpn.symm⟩
    · rw [grid_set_other _ _ _ _ hpn] at hj
      by_cases hpc : p = s.pos i
      · rw [hpc, grid_set_same] at hj; cases hj
      · rw [grid_set_other _ _ _ _ hpc] at hj
        obtain ⟨hjn, hjon, hjp⟩ := hW.grid_ok p hp j hj
        have hji : j ≠ i := by
          intro he; rw [he] at hjp
          exact hpc hjp.symm
        simp only [if_neg hji]
        exact ⟨hjn, hjon, hjp⟩

/-- The frame and invariant facts delivered by a normal return of
`moveResolve`: only agent `i`'s position and the two cells involved can
change; the registry/grid consistency survives. -/
theorem moveResolve_WF (cfg : Config) (s : State) (i : Nat)
    (curr next : Int × Int) (s' : State) (r : ℚ)
    (hW : WF cfg s) (hi : i < nAgents cfg) (hon : s.onRoad i = true)
    (hcurr : curr = s.pos i)
    (h : moveResolve cfg s i curr next = .ok (s', r)) :
    WF cfg s' ∧ s'.onRoad = s.onRoad ∧ s'.dones = s.dones ∧
    s'.stepCount = s.stepCount ∧ s'.totalReward = s.totalReward ∧
    s'.currCarsCount = s.currCarsCount ∧ s'.routes = s.routes := by
  unfold moveResolve at h
  split at h
  · cases h
    exact ⟨hW, rfl, rfl, rfl, rfl, rfl, rfl⟩
  · split at h
    · next hnc hvac =>
      cases h
      obtain ⟨hvalidn, hemptyn⟩ := (is_cell_vacant_iff cfg s next).mp hvac
      refine ⟨?_, rfl, rfl, rfl, rfl, rfl, rfl⟩
      refine WF_move cfg s _ i next hW hi hon hvalidn hemptyn rfl ?_ rfl
      funext q
      simp [update_agent_view, grid_set, hcurr]
    · cases h
      exact ⟨hW, rfl, rfl, rfl, rfl, rfl, rfl⟩

/-- `WF` only mentions positions, on-road flags and the grid, so updating
directions and turn flags preserves it. -/
theorem WF_same_fields (cfg : Config) (s t : State)
    (hpos : t.pos = s.pos) (hon : t.onRoad = s.onRoad) (hgrid : t.grid = s.grid)
    (h : WF cfg s) : WF cfg t := by
  constructor
  · intro i hi honi
    rw [hpos, hgrid]
    exact h.pos_ok i hi (by rw [← hon]; exact honi)
  · intro p hp j hj
    rw [hgrid] at hj
    rw [hpos, hon]
    exact h.grid_ok p hp j hj

/-- Invariant preservation and frame facts for one processed agent of the
movement pass. -/
theorem update_agent_pos_WF (cfg : Config) (s : State) (i : Nat) (move : Nat)
    (s' : State) (r : ℚ)
    (hW : WF cfg s) (hi : i < nAgents cfg) (hon : s.onRoad i = true)
    (h : update_agent_pos cfg s i move = .ok (s', r)) :
    WF cfg s' ∧ s'.onRoad = s.onRoad ∧ s'.dones = s.dones ∧
    s'.stepCount = s.stepCount ∧ s'.totalReward = s.totalReward ∧
    s'.currCarsCount = s.currCarsCount ∧ s'.routes = s.routes := by
  unfold update_agent_pos at h
  match move, h with
  | 0, h =>
    dsimp only at h
    split at h
    · exact moveResolve_WF cfg s i _ _ s' r hW hi hon rfl h
    · split at h
      · cases h
      · split at h
        · cases h
        · split at h
          · next hturn =>
            have hW1 : WF cfg { s with
                dirs := fun k => if k = i then
                    get_next_move (s.routes i) (s.dirs i) else s.dirs k,
                turned := fun k => if k = i then true else s.turned k } :=
              WF_same_fields cfg s _ rfl rfl rfl hW
            have := moveResolve_WF cfg _ i _ _ s' r hW1 hi hon rfl h
            simpa using this
          · exact moveResolve_WF cfg s i _ _ s' r hW hi hon rfl h
  | 1, h =>
    cases h
    exact ⟨hW, rfl, rfl, rfl, rfl, rfl, rfl⟩

theorem movePass_nil (cfg : Config) (s : State) (rew : Nat → ℚ) (i : Nat) :
    movePass cfg s rew i [] = .ok (s, rew) := rfl

theorem movePass_cons (cfg : Config) (s : State) (rew : Nat → ℚ) (i : Nat)
    (a : Nat) (rest : List Nat) :
    movePass cfg s rew i (a :: rest) =
      if s.dones i = false ∧ s.onRoad i = true then
        match update_agent_pos cfg s i a with
        | .error _ => .error s
        | .ok (s1, r) =>
            movePass cfg s1 (fun k => if k = i then rew k + r else rew k)
              (i + 1) rest
      else movePass cfg s rew (i + 1) rest := rfl

/-- The movement pass preserves the invariant and does not touch the
flags, the counters or the episode totals. -/
theorem movePass_WF (cfg : Config) :
    ∀ (acts : List Nat) (start : Nat) (s : State) (rew : Nat → ℚ)
      (s' : State) (rew' : Nat → ℚ),
    WF cfg s → start + acts.length ≤ nAgents cfg →
    movePass cfg s rew start acts = .ok (s', rew') →
    WF cfg s' ∧ s'.onRoad = s.onRoad ∧ s'.dones = s.dones ∧
    s'.stepCount = s.stepCount ∧ s'.totalReward = s.totalReward ∧
    s'.currCarsCount = s.currCarsCount ∧ s'.routes = s.routes := by
  intro acts
  induction acts with
  | nil =>
    intro start s rew s' rew' hW _ h
    rw [movePass_nil] at h
    cases h
    exact ⟨hW, rfl, rfl, rfl, rfl, rfl, rfl⟩
  | cons a rest ih =>
    intro start s rew s' rew' hW hlen h
    rw [movePass_cons] at h
    split at h
    · next hact =>
      match hu : update_agent_pos cfg s start a with
      | .error e => rw [hu] at h; cases h
      | .ok (s1, r) =>
        rw [hu] at h
        have hstart : start < nAgents cfg := by
          simp only [List.length_cons] at hlen; omega
        obtain ⟨hW1, e1, e2, e3, e4, e5, e6⟩ :=
          update_agent_pos_WF cfg s start a s1 r hW hstart hact.2 hu
        obtain ⟨hW2, f1, f2, f3, f4, f5, f6⟩ :=
          ih (start + 1) s1 _ s' rew' hW1
            (by simp only [List.length_cons] at hlen; omega) h
        exact ⟨hW2, f1.trans e1, f2.trans e2, f3.trans e3, f4.trans e4,
          f5.trans e5, f6.trans e6⟩
    · obtain ⟨hW2, f1, f2, f3, f4, f5, f6⟩ :=
        ih (start + 1) s rew s' rew' hW
          (by simp only [List.length_cons] at hlen; omega) h
      exact ⟨hW2, f1, f2, f3, f4, f5, f6⟩

/-- Activating an inactive agent on a vacant valid cell preserves the
registry/grid invariant (component-wise form). -/
theorem WF_spawn (cfg : Config) (s t : State) (i : Nat) (p : Int × Int)
    (hW : WF cfg s) (hi : i < nAgents cfg) (hoff : s.onRoad i = false)
    (hvalid : is_valid cfg p = true) (hempty : s.grid p = Cell.empty)
    (hpos : t.pos = fun j => if j = i then p else s.pos j)
    (hon : t.onRoad = fun j => if j = i then true else s.onRoad j)
    (hgrid : t.grid = grid_set s.grid p (Cell.agent i)) : WF cfg t := by
  constructor
  · intro k hk honk
    rw [hpos, hgrid]
    rw [hon] at honk
    by_cases hki : k = i
    · subst hki
      simp only [if_pos rfl]
      exact ⟨hvalid, grid_set_same _ _ _⟩
    · simp only [if_neg hki] at honk ⊢
      obtain ⟨hvk, hgk⟩ := hW.pos_ok k hk honk
      have h1 : s.pos k ≠ p := by
        intro he; rw [he, hempty] at hgk; cases hgk
      rw [grid_set_other _ _ _ _ h1]
      exact ⟨hvk, hgk⟩
  · intro q hq j hj
    rw [hgrid] at hj
    rw [hpos, hon]
    by_cases hqp : q = p
    · rw [hqp, grid_set_same] at hj
      have hji : j = i := (Cell.agent.inj hj).symm
      subst hji
      simp only [if_pos rfl]
      exact ⟨hi, rfl, hqp.symm⟩
    · rw [grid_set_other _ _ _ _ hqp] at hj
      obtain ⟨hjn, hjon, hjq⟩ := hW.grid_ok q hq j hj
      have hji : j ≠ i := by
        intro he; rw [he] at hjon; rw [hjon] at hoff; cases hoff
      simp only [if_neg hji]
      exact ⟨hjn, hjon, hjq⟩

/-- Outcome characterization of one spawn loop: either the agent was placed
on some gate key (live, car count incremented), or (init fallback only) it
was parked off-road at `(0, 0)`.  Other slots and the episode bookkeeping
are untouched. -/
theorem spawnLoop_spec (cfg : Config) (i : Nat) (setT fallbk : Bool) :
    ∀ (gs : List (Fin 4)) (rs : List (Fin 3)) (s s' : State)
      (gs' : List (Fin 4)) (rs' : List (Fin 3)),
    spawnLoop cfg i setT fallbk s gs rs = some (s', gs', rs') →
    s'.stepCount = s.stepCount ∧ s'.dones = s.dones ∧
    s'.totalReward = s.totalReward ∧
    (∀ j, j ≠ i → s'.onRoad j = s.onRoad j ∧ s'.pos j = s.pos j) ∧
    ((s'.onRoad i = true ∧ (∃ k : Fin 4, s'.pos i = gate_key cfg k) ∧
        s'.currCarsCount = s.currCarsCount + 1) ∨
      (s'.onRoad i = s.onRoad i ∧ s'.pos i = ((0 : Int), (0 : Int)) ∧
        s'.currCarsCount = s.currCarsCount ∧ fallbk = true)) := by
  intro gs
  induction gs with
  | nil => intro rs s s' gs' rs' h; cases h
  | cons k gtl ih =>
    intro rs s s' gs' rs' h
    rw [spawnLoop.eq_def] at h
    dsimp only at h
    split at h
    · match rs, h with
      | rt :: rs1, h =>
        cases h
        refine ⟨rfl, rfl, rfl, ?_,
          Or.inl ⟨by simp [update_agent_view], ⟨k, by simp [update_agent_view]⟩,
            by simp [update_agent_view]⟩⟩
        intro j hj
        simp [update_agent_view, hj]
    · split at h
      · next hfb =>
        cases h
        refine ⟨rfl, rfl, rfl, ?_,
          Or.inr ⟨by simp [update_agent_view], by simp [update_agent_view],
            by simp [update_agent_view], hfb.1⟩⟩
        intro j hj
        simp [update_agent_view, hj]
      · obtain ⟨e1, e2, e3, e4, e5⟩ := ih rs _ s' gs' rs' h
        exact ⟨e1, e2, e3, e4, e5⟩

/-- Invariant preservation for one successful spawn loop; the init
fallback is excluded by the car-count bound. -/
theorem spawnLoop_WF (cfg : Config) (i : Nat) (setT fallbk : Bool) :
    ∀ (gs : List (Fin 4)) (rs : List (Fin 3)) (s s' : State)
      (gs' : List (Fin 4)) (rs' : List (Fin 3)),
    WF cfg s → i < nAgents cfg → s.onRoad i = false →
    (fallbk = true → s.currCarsCount < 4) →
    spawnLoop cfg i setT fallbk s gs rs = some (s', gs', rs') →
    WF cfg s' ∧ s'.currCarsCount = s.currCarsCount + 1 ∧
    s'.onRoad i = true ∧ (∀ j, j ≠ i → s'.onRoad j = s.onRoad j) := by
  intro gs
  induction gs with
  | nil => intro rs s s' gs' rs' _ _ _ _ h; cases h
  | cons k gtl ih =>
    intro rs s s' gs' rs' hW hi hoff hno4 h
    rw [spawnLoop.eq_def] at h
    dsimp only at h
    split at h
    · next hvac =>
      match rs, h with
      | rt :: rs1, h =>
        cases h
        obtain ⟨hvalid, hempty⟩ := (is_cell_vacant_iff cfg _ _).mp hvac
        refine ⟨?_, by simp [update_agent_view], by simp [update_agent_view], ?_⟩
        · refine WF_spawn cfg s _ i (gate_key cfg k) hW hi hoff hvalid hempty
            rfl rfl ?_
          funext q
          simp [update_agent_view, grid_set]
        · intro j hj
          simp [update_agent_view, hj]
    · split at h
      · next hfb =>
        exact absurd (hno4 hfb.1) (by omega)
      · exact ih rs
          { s with dirs := fun j => if j = i then gate_dir k else s.dirs j }
          s' gs' rs' (WF_same_fields cfg s _ rfl rfl rfl hW) hi hoff hno4 h

/-- Outcome characterization of `__init_full_obs`'s placement loop: every
processed slot ends up either live on a gate key or parked at `(0, 0)`;
untouched slots and the episode bookkeeping are unchanged. -/
theorem initFold_spec (cfg : Config) :
    ∀ (agents : List Nat) (gs : List (Fin 4)) (rs : List (Fin 3)) (s s' : State),
    agents.Nodup →
    initFold cfg s agents gs rs = some s' →
    s'.stepCount = s.stepCount ∧ s'.dones = s.dones ∧
    s'.totalReward = s.totalReward ∧
    (∀ j, j ∉ agents → s'.onRoad j = s.onRoad j ∧ s'.pos j = s.pos j) ∧
    (∀ j, j ∈ agents →
      (s'.onRoad j = true ∧ ∃ k : Fin 4, s'.pos j = gate_key cfg k) ∨
      (s'.onRoad j = s.onRoad j ∧ s'.pos j = ((0 : Int), (0 : Int)))) := by
  intro agents
  induction agents with
  | nil =>
    intro gs rs s s' _ h
    cases h
    exact ⟨rfl, rfl, rfl, fun j _ => ⟨rfl, rfl⟩, fun j hj => absurd hj (by simp)⟩
  | cons i0 rest ih =>
    intro gs rs s s' hnd h
    rw [initFold] at h
    match hsp : spawnLoop cfg i0 false true s gs rs, h with
    | some (s1, gs1, rs1), h =>
      obtain ⟨a1, a2, a3, aframe, acase⟩ :=
        spawnLoop_spec cfg i0 false true gs rs s s1 gs1 rs1 hsp
      obtain ⟨b1, b2, b3, bframe, bcase⟩ :=
        ih gs1 rs1 s1 s' (List.Nodup.of_cons hnd) h
      have hi0rest : i0 ∉ rest := (List.nodup_cons.mp hnd).1
      refine ⟨b1.trans a1, b2.trans a2, b3.trans a3, ?_, ?_⟩
      · intro j hj
        have hj1 : j ≠ i0 := fun he => hj (he ▸ List.mem_cons_self i0 rest)
        have hj2 : j ∉ rest := fun he => hj (List.mem_cons_of_mem i0 he)
        obtain ⟨c1, c2⟩ := bframe j hj2
        obtain ⟨d1, d2⟩ := aframe j hj1
        exact ⟨c1.trans d1, c2.trans d2⟩
      · intro j hj
        rcases List.mem_cons.mp hj with hji0 | hjrest
        · subst hji0
          obtain ⟨c1, c2⟩ := bframe j hi0rest
          rcases acase with ⟨p1, p2, _⟩ | ⟨p1, p2, _, _⟩
          · exact Or.inl ⟨c1.trans p1, by
              obtain ⟨k, hk⟩ := p2; exact ⟨k, c2.trans hk⟩⟩
          · exact Or.inr ⟨c1.trans p1, c2.trans p2⟩
        · rcases bcase j hjrest with hb | ⟨p1, p2⟩
          · exact Or.inl hb
          · have hji0 : j ≠ i0 := fun he => hi0rest (he ▸ hjrest)
            exact Or.inr ⟨p1.trans (aframe j hji0).1, p2⟩

/-- Invariant preservation through the init placement loop: as long as at
most 4 slots remain to place, the `(0, 0)` fallback cannot trigger and
every processed slot is placed on a vacant gate. -/
theorem initFold_WF (cfg : Config) :
    ∀ (agents : List Nat) (gs : List (Fin 4)) (rs : List (Fin 3))
      (s s' : State) (c : Int),
    agents.Nodup → WF cfg s →
    (∀ j ∈ agents, j < nAgents cfg ∧ s.onRoad j = false) →
    s.currCarsCount ≤ c → c + (agents.length : Int) ≤ 4 →
    initFold cfg s agents gs rs = some s' → WF cfg s' := by
  intro agents
  induction agents with
  | nil =>
    intro gs rs s s' c _ hW _ _ _ h
    cases h
    exact hW
  | cons i0 rest ih =>
    intro gs rs s s' c hnd hW hmem hc hlen h
    rw [initFold] at h
    match hsp : spawnLoop cfg i0 false true s gs rs, h with
    | some (s1, gs1, rs1), h =>
      obtain ⟨hi0n, hi0off⟩ := hmem i0 (List.mem_cons_self i0 rest)
      obtain ⟨hW1, hcnt, hon1, hframe⟩ :=
        spawnLoop_WF cfg i0 false true gs rs s s1 gs1 rs1 hW hi0n hi0off
          (fun _ => by simp only [List.length_cons] at hlen; push_cast at hlen; omega)
          hsp
      have hi0rest : i0 ∉ rest := (List.nodup_cons.mp hnd).1
      refine ih gs1 rs1 s1 s' (c + 1) (List.Nodup.of_cons hnd) hW1 ?_ ?_ ?_ h
      · intro j hj
        have hji0 : j ≠ i0 := fun he => hi0rest (he ▸ hj)
        obtain ⟨hjn, hjoff⟩ := hmem j (List.mem_cons_of_mem i0 hj)
        exact ⟨hjn, (hframe j hji0).trans hjoff⟩
      · omega
      · simp only [List.length_cons] at hlen; push_cast at hlen ⊢; omega

/-- What `reset` guarantees on a normal return: counters, totals and done
flags reinitialized, the fresh observations computed from the resulting
state, every live car sitting on a route-vector gate key, and every
inactive slot parked at the `(0, 0)` sentinel. -/
theorem reset_spec (cfg : Config) (s : State) (gs : List (Fin 4))
    (rs : List (Fin 3)) (s0 : State) (obs : List (List ℚ))
    (h : reset cfg s gs rs = some (s0, obs)) :
    s0.stepCount = 0 ∧ (∀ i, s0.dones i = false) ∧
    (∀ i, s0.totalReward i = 0) ∧ obs = get_agent_obs cfg s0 ∧
    (∀ i, s0.onRoad i = true → ∃ k : Fin 4, s0.pos i = gate_key cfg k) ∧
    (∀ i, i < nAgents cfg → s0.onRoad i = false →
      s0.pos i = ((0 : Int), (0 : Int))) := by
  unfold reset init_full_obs at h
  rw [Option.map_eq_some'] at h
  obtain ⟨s1, hinit, heq⟩ := h
  rw [Prod.mk.injEq] at heq
  obtain ⟨h1, h2⟩ := heq
  rw [h1] at hinit h2
  obtain ⟨e1, e2, e3, eframe, ecase⟩ :=
    initFold_spec cfg (List.range (nAgents cfg)) gs rs _ s0
      (List.nodup_range _) hinit
  refine ⟨e1, ?_, ?_, h2.symm, ?_, ?_⟩
  · intro i; rw [e2]
  · intro i; rw [e3]
  · intro i hon
    by_cases hi : i < nAgents cfg
    · rcases ecase i (List.mem_range.mpr hi) with ⟨_, hk⟩ | ⟨hroad, _⟩
      · exact hk
      · rw [hroad] at hon; cases hon
    · have := (eframe i (by simp [List.mem_range]; omega)).1
      rw [this] at hon; cases hon
  · intro i hi hoff
    rcases ecase i (List.mem_range.mpr hi) with ⟨hroad, _⟩ | ⟨_, hp⟩
    · rw [hroad] at hoff; cases hoff
    · exact hp

/-- For capacities of at most 4 slots, `reset` establishes the
registry/grid invariant. -/
theorem reset_WF (cfg : Config) (hn : cfg.n_max ≤ 4) (s : State)
    (gs : List (Fin 4)) (rs : List (Fin 3)) (s0 : State)
    (obs : List (List ℚ)) (h : reset cfg s gs rs = some (s0, obs)) :
    WF cfg s0 := by
  unfold reset init_full_obs at h
  rw [Option.map_eq_some'] at h
  obtain ⟨s1, hinit, heq⟩ := h
  rw [Prod.mk.injEq] at heq
  rw [heq.1] at hinit
  refine initFold_WF cfg (List.range (nAgents cfg)) gs rs _ s0 0
    (List.nodup_range _) ?_ ?_ (le_refl 0) ?_ hinit
  · constructor
    · intro i _ hon
      cases hon
    · intro p _ j hj
      simp only [create_grid] at hj
      split at hj <;> cases hj
  · intro j hj
    exact ⟨List.mem_range.mp hj, rfl⟩
  · simp only [List.length_range, nAgents]
    omega

theorem depStep_pos (cfg : Config) (s : State) (i0 : Nat) :
    (depStep cfg s i0).pos = s.pos := by
  unfold depStep; split <;> rfl

theorem depStep_stepCount (cfg : Config) (s : State) (i0 : Nat) :
    (depStep cfg s i0).stepCount = s.stepCount := by
  unfold depStep; split <;> rfl

theorem depStep_dones (cfg : Config) (s : State) (i0 : Nat) :
    (depStep cfg s i0).dones = s.dones := by
  unfold depStep; split <;> rfl

theorem depStep_totalReward (cfg : Config) (s : State) (i0 : Nat) :
    (depStep cfg s i0).totalReward = s.totalReward := by
  unfold depStep; split <;> rfl

theorem depStep_onRoad (cfg : Config) (s : State) (i0 i : Nat) :
    (depStep cfg s i0).onRoad i =
      if i = i0 ∧ s.pos i0 ∈ destinations cfg then false else s.onRoad i := by
  unfold depStep
  split
  · next hd =>
    show (if i = i0 then false else s.onRoad i) = _
    by_cases hii : i = i0
    · have hp : i = i0 ∧ s.pos i0 ∈ destinations cfg := ⟨hii, hd⟩
      rw [if_pos hii, if_pos hp]
    · have hn : ¬(i = i0 ∧ s.pos i0 ∈ destinations cfg) := fun hcon => hii hcon.1
      rw [if_neg hii, if_neg hn]
  · next hd =>
    have hn : ¬(i = i0 ∧ s.pos i0 ∈ destinations cfg) := fun hcon => hd hcon.2
    rw [if_neg hn]

theorem depStep_grid (cfg : Config) (s : State) (i0 : Nat) (q : Int × Int) :
    (depStep cfg s i0).grid q =
      if q = s.pos i0 ∧ s.pos i0 ∈ destinations cfg then Cell.empty
      else s.grid q := by
  unfold depStep
  split
  · next hd =>
    show grid_set s.grid (s.pos i0) Cell.empty q = _
    by_cases hq : q = s.pos i0
    · have hp : q = s.pos i0 ∧ s.pos i0 ∈ destinations cfg := ⟨hq, hd⟩
      rw [if_pos hp, hq, grid_set_same]
    · have hn : ¬(q = s.pos i0 ∧ s.pos i0 ∈ destinations cfg) :=
        fun hcon => hq hcon.1
      rw [grid_set_other _ _ _ _ hq, if_neg hn]
  · next hd =>
    have hn : ¬(q = s.pos i0 ∧ s.pos i0 ∈ destinations cfg) :=
      fun hcon => hd hcon.2
    rw [if_neg hn]

/-- Full characterization of the departure pass over an arbitrary slot
list: positions and bookkeeping are untouched, a processed slot is taken
off the road exactly when its recorded position is a destination, and
exactly the destination cells recorded by processed slots are emptied. -/
theorem depFold_spec (cfg : Config) :
    ∀ (L : List Nat) (s : State),
    (L.foldl (depStep cfg) s).pos = s.pos ∧
    (L.foldl (depStep cfg) s).stepCount = s.stepCount ∧
    (L.foldl (depStep cfg) s).dones = s.dones ∧
    (L.foldl (depStep cfg) s).totalReward = s.totalReward ∧
    (∀ i, (L.foldl (depStep cfg) s).onRoad i =
      if i ∈ L ∧ s.pos i ∈ destinations cfg then false else s.onRoad i) ∧
    (∀ q, (L.foldl (depStep cfg) s).grid q =
      if ∃ i, i ∈ L ∧ s.pos i = q ∧ q ∈ destinations cfg then Cell.empty
      else s.grid q) := by
  intro L
  induction L with
  | nil =>
    intro s
    refine ⟨rfl, rfl, rfl, rfl, ?_, ?_⟩
    · intro i; simp
    · intro q; simp
  | cons i0 tl ih =>
    intro s
    simp only [List.foldl_cons]
    obtain ⟨g1, g2, g3, g4, g5, g6⟩ := ih (depStep cfg s i0)
    refine ⟨g1.trans (depStep_pos cfg s i0),
      g2.trans (depStep_stepCount cfg s i0),
      g3.trans (depStep_dones cfg s i0),
      g4.trans (depStep_totalReward cfg s i0), ?_, ?_⟩
    · intro i
      rw [g5 i, depStep_pos, depStep_onRoad]
      by_cases h2 : i ∈ tl ∧ s.pos i ∈ destinations cfg
      · have hm : i ∈ i0 :: tl ∧ s.pos i ∈ destinations cfg :=
          ⟨List.mem_cons_of_mem i0 h2.1, h2.2⟩
        rw [if_pos h2, if_pos hm]
      · rw [if_neg h2]
        by_cases h3 : i = i0 ∧ s.pos i0 ∈ destinations cfg
        · have hm : i ∈ i0 :: tl ∧ s.pos i ∈ destinations cfg :=
            ⟨List.mem_cons.mpr (Or.inl h3.1), by rw [h3.1]; exact h3.2⟩
          rw [if_pos h3, if_pos hm]
        · rw [if_neg h3]
          have hng : ¬(i ∈ i0 :: tl ∧ s.pos i ∈ destinations cfg) := by
            intro ⟨hm, hd⟩
            rcases List.mem_cons.mp hm with he | he
            · exact h3 ⟨he, by rw [← he]; exact hd⟩
            · exact h2 ⟨he, hd⟩
          rw [if_neg hng]
    · intro q
      rw [g6 q, depStep_pos]
      by_cases hc : ∃ i, i ∈ tl ∧ s.pos i = q ∧ q ∈ destinations cfg
      · rw [if_pos hc]
        obtain ⟨i, hi1, hi2, hi3⟩ := hc
        have hm : ∃ i, i ∈ i0 :: tl ∧ s.pos i = q ∧ q ∈ destinations cfg :=
          ⟨i, List.mem_cons_of_mem i0 hi1, hi2, hi3⟩
        rw [if_pos hm]
      · rw [if_neg hc, depStep_grid]
        by_cases hq : q = s.pos i0 ∧ s.pos i0 ∈ destinations cfg
        · have hm : ∃ i, i ∈ i0 :: tl ∧ s.pos i = q ∧ q ∈ destinations cfg :=
            ⟨i0, List.mem_cons_self i0 tl, hq.1.symm, by rw [hq.1]; exact hq.2⟩
          rw [if_pos hq, if_pos hm]
        · rw [if_neg hq]
          have hng : ¬∃ i, i ∈ i0 :: tl ∧ s.pos i = q ∧ q ∈ destinations cfg := by
            intro ⟨i, hm, hp, hd⟩
            rcases List.mem_cons.mp hm with he | he
            · subst he
              exact hq ⟨hp.symm, by rw [hp]; exact hd⟩
            · exact hc ⟨i, he, hp, hd⟩
          rw [if_neg hng]

/-- The departure pass preserves the registry/grid invariant.  Note this
holds even though the source deactivates any slot whose stale recorded
position is a destination: in the final state every such cell has been
emptied and every such slot is off the road. -/
theorem departurePass_WF (cfg : Config) (s : State) (hW : WF cfg s) :
    WF cfg (departurePass cfg s) := by
  obtain ⟨g1, _, _, _, g5, g6⟩ := depFold_spec cfg (List.range (nAgents cfg)) s
  unfold departurePass
  constructor
  · intro i hi hon
    rw [g5 i] at hon
    by_cases hc : i ∈ List.range (nAgents cfg) ∧ s.pos i ∈ destinations cfg
    · rw [if_pos hc] at hon; cases hon
    · rw [if_neg hc] at hon
      have hpd : s.pos i ∉ destinations cfg :=
        fun hd => hc ⟨List.mem_range.mpr hi, hd⟩
      obtain ⟨hv, hg⟩ := hW.pos_ok i hi hon
      rw [g1, g6 (s.pos i)]
      have hng : ¬∃ j, j ∈ List.range (nAgents cfg) ∧ s.pos j = s.pos i ∧
          s.pos i ∈ destinations cfg := by
        intro ⟨j, _, _, hd⟩
        exact hpd hd
      rw [if_neg hng]
      exact ⟨hv, hg⟩
  · intro p hp j hj
    rw [g6 p] at hj
    by_cases hc : ∃ k, k ∈ List.range (nAgents cfg) ∧ s.pos k = p ∧
        p ∈ destinations cfg
    · rw [if_pos hc] at hj; cases hj
    · rw [if_neg hc] at hj
      obtain ⟨hjn, hjon, hjp⟩ := hW.grid_ok p hp j hj
      rw [g1, g5 j]
      have hng : ¬(j ∈ List.range (nAgents cfg) ∧ s.pos j ∈ destinations cfg) :=
        fun ⟨hm, hd⟩ => hc ⟨j, hm, hjp, hjp ▸ hd⟩
      rw [if_neg hng]
      exact ⟨hjn, hjon, hjp⟩

/-- The arrival loop preserves the registry/grid invariant (its spawn
loops never use the `(0, 0)` fallback). -/
theorem arrivalFold_WF (cfg : Config) :
    ∀ (agents : List Nat) (gs : List (Fin 4)) (rs : List (Fin 3)) (s s' : State),
    WF cfg s → (∀ j ∈ agents, j < nAgents cfg) →
    arrivalFold cfg s agents gs rs = some s' → WF cfg s' := by
  intro agents
  induction agents with
  | nil =>
    intro gs rs s s' hW _ h
    cases h
    exact hW
  | cons i0 rest ih =>
    intro gs rs s s' hW hmem h
    rw [arrivalFold] at h
    split at h
    · next hcond =>
      match hsp : spawnLoop cfg i0 true false s gs rs, h with
      | some (s1, gs1, rs1), h =>
        obtain ⟨hW1, _, _, _⟩ :=
          spawnLoop_WF cfg i0 true false gs rs s s1 gs1 rs1 hW
            (hmem i0 (List.mem_cons_self i0 rest)) hcond.2
            (fun hfb => (Bool.false_ne_true hfb).elim) hsp
        exact ih gs1 rs1 s1 s' hW1
          (fun j hj => hmem j (List.mem_cons_of_mem i0 hj)) h
    · exact ih gs rs s s' hW
        (fun j hj => hmem j (List.mem_cons_of_mem i0 hj)) h

theorem arrivalPass_WF (cfg : Config) (s : State) (u : ℚ)
    (gs : List (Fin 4)) (rs : List (Fin 3)) (s' : State)
    (hW : WF cfg s) (h : arrivalPass cfg s u gs rs = some s') : WF cfg s' := by
  unfold arrivalPass at h
  split at h
  · exact arrivalFold_WF cfg (List.range (nAgents cfg)) gs rs s s' hW
      (fun j hj => List.mem_range.mp hj) h
  · cases h
    exact hW

theorem done_check_pos (cfg : Config) (s : State) :
    (done_check cfg s).pos = s.pos := by
  unfold done_check; split <;> rfl

theorem done_check_onRoad (cfg : Config) (s : State) :
    (done_check cfg s).onRoad = s.onRoad := by
  unfold done_check; split <;> rfl

theorem done_check_grid (cfg : Config) (s : State) :
    (done_check cfg s).grid = s.grid := by
  unfold done_check; split <;> rfl

theorem done_check_stepCount (cfg : Config) (s : State) :
    (done_check cfg s).stepCount = s.stepCount := by
  unfold done_check; split <;> rfl

/-- The invariant survives one full normally-returning `step`. -/
theorem step_WF (cfg : Config) (s : State) (acts : List Nat) (u : ℚ)
    (gs : List (Fin 4)) (rs : List (Fin 3)) (s' : State)
    (obs : List (List ℚ)) (rews : List ℚ) (dns : List Bool)
    (hW : WF cfg s)
    (h : step cfg s acts u gs rs = .ok s' obs rews dns) : WF cfg s' := by
  unfold step at h
  split at h
  · cases h
  · next hlen =>
    dsimp only at h
    have hW1 : WF cfg { s with stepCount := s.stepCount + 1 } :=
      WF_same_fields cfg s _ rfl rfl rfl hW
    cases hmv : movePass cfg { s with stepCount := s.stepCount + 1 }
        (fun _ => 0) 0 acts with
    | error se => rw [hmv] at h; cases h
    | ok pr =>
      obtain ⟨s2, rew1⟩ := pr
      rw [hmv] at h
      dsimp only at h
      obtain ⟨hW2, _⟩ := movePass_WF cfg acts 0 _ _ s2 rew1 hW1
        (by omega) hmv
      cases harr : arrivalPass cfg s2 u gs rs with
      | none => rw [harr] at h; cases h
      | some s3 =>
        rw [harr] at h
        dsimp only at h
        have hW3 : WF cfg s3 := arrivalPass_WF cfg s2 u gs rs s3 hW2 harr
        have hW4 : WF cfg (departurePass cfg s3) := departurePass_WF cfg s3 hW3
        have hW5 : WF cfg (done_check cfg (departurePass cfg s3)) :=
          WF_same_fields cfg _ _ (done_check_pos cfg _) (done_check_onRoad cfg _)
            (done_check_grid cfg _) hW4
        cases h
        exact WF_same_fields cfg (done_check cfg (departurePass cfg s3)) _
          rfl rfl rfl hW5


theorem runSteps_WF (cfg : Config) :
    ∀ (script : List StepRand) (s s' : State),
    WF cfg s → runSteps cfg s script = some s' → WF cfg s' := by
  intro script
  induction script with
  | nil =>
    intro s s' hW h
    cases h
    exact hW
  | cons e rest ih =>
    intro s s' hW h
    rw [runSteps] at h
    cases hst : step cfg s e.acts e.u e.gs e.rs with
    | ok s1 obs1 rews1 dns1 =>
      rw [hst] at h
      exact ih s1 s' (step_WF cfg s e.acts e.u e.gs e.rs s1 obs1 rews1 dns1
        hW hst) h
    | stuck => rw [hst] at h; cases h
    | raised se => rw [hst] at h; cases h

/-- The default construction `TrafficJunction()`: 14x14 grid, `n_max = 4`,
`rcoll = -10`, `arrive_prob = 0.5`, partial observability. -/
def cfgD : Config :=
  { rows := 14, cols := 14, n_max := 4, rcoll := -10,
    arrive_prob := mkRat 1 2, full_observable := false }

/-- `TrafficJunction(n_max=5)`. -/
def cfg5 : Config := { cfgD with n_max := 5 }

/-- `TrafficJunction(n_max=1)`. -/
def cfg1 : Config := { cfgD with n_max := 1 }

/-- `TrafficJunction(n_max=2)`. -/
def cfg2 : Config := { cfgD with n_max := 2 }

/-- A `reset` of the `n_max = 5` instance whose first four gate draws fill
all four gates and whose fifth draw hits an occupied gate. -/
def s0five : State :=
  ((reset cfg5 (initState cfg5) [0, 1, 2, 3, 0] [0, 0, 0, 0]).getD
    (initState cfg5, [])).1

/-- **C2, counterexample.**  On `TrafficJunction(n_max=5)`, `reset` places
four cars on the four gates and then parks slot 4 off-road at `(0, 0)` while
still marking cell `(0, 0)` as occupied by it: five cells are marked
occupied but only four agents are on the road, refuting the claimed
grid/registry equality for arbitrary instances. -/
theorem C2_counterexample :
    (reset cfg5 (initState cfg5) [0, 1, 2, 3, 0] [0, 0, 0, 0]).isSome = true ∧
    occupiedCount cfg5 s0five = 5 ∧ liveCount cfg5 s0five = 4 ∧
    s0five.onRoad 4 = false ∧ s0five.pos 4 = ((0 : Int), (0 : Int)) ∧
    isAgentCell (s0five.grid ((0 : Int), (0 : Int))) = true := by
  refine ⟨by decide, by decide, by decide, by decide, by decide, by decide⟩

/-- **C2** (amended): for instances whose capacity `n_max` is at most 4 --
so the `(0, 0)` off-road parking branch of `__init_full_obs` can never
trigger -- the number of grid cells marked occupied equals the number of
agents with `on_the_road` set, after `reset` and after every sequence of
normally returning `step` calls. -/
theorem C2_occupied_eq_live (cfg : Config) (hn : cfg.n_max ≤ 4)
    (s : State) (gs : List (Fin 4)) (rs : List (Fin 3)) (s0 : State)
    (obs : List (List ℚ)) (script : List StepRand) (sF : State)
    (hreset : reset cfg s gs rs = some (s0, obs))
    (hrun : runSteps cfg s0 script = some sF) :
    occupiedCount cfg sF = liveCount cfg sF :=
  WF.occ_eq_live cfg sF
    (runSteps_WF cfg script s0 sF (reset_WF cfg hn s gs rs s0 obs hreset) hrun)

/-- The state produced by a concrete `reset` of `TrafficJunction(n_max=2)`. -/
def s0two : State :=
  ((reset cfg2 (initState cfg2) [0, 1] [0, 0]).getD (initState cfg2, [])).1

/-- The observations produced by that same `reset`. -/
def obs0two : List (List ℚ) :=
  ((reset cfg2 (initState cfg2) [0, 1] [0, 0]).getD (initState cfg2, [])).2

theorem C2_witness :
    cfg2.n_max ≤ 4 ∧ occupiedCount cfg2 s0two = liveCount cfg2 s0two :=
  ⟨by decide,
    C2_occupied_eq_live cfg2 (by decide) (initState cfg2) [0, 1] [0, 0]
      s0two obs0two [] s0two (by rfl) (by rfl)⟩

/-- **C1, counterexample.**  On `TrafficJunction(n_max=2)` with gate draws
`[0, 1]`, `reset` returns with agent 0 on the road and two grid cells
occupied, refuting the claim that `reset` deactivates all cars and leaves
the occupancy grid empty. -/
theorem C1_counterexample :
    (reset cfg2 (initState cfg2) [0, 1] [0, 0]).isSome = true ∧
    s0two.onRoad 0 = true ∧ occupiedCount cfg2 s0two ≠ 0 := by
  refine ⟨by decide, by decide, by decide⟩

/-- **C1** (amended): `reset` reinitializes all counters (step counter 0,
per-agent totals 0, done flags false), re-derives the occupancy grid from
the topology, and then immediately activates cars at randomly chosen
vacant entry gates (route-vector keys), parking any agents left over once
four cars were placed off-road at `(0, 0)`; it returns the Observation
Builder's output for the resulting (generally non-empty) grid. -/
theorem C1_reset_amended (cfg : Config) (s : State) (gs : List (Fin 4))
    (rs : List (Fin 3)) (s0 : State) (obs : List (List ℚ))
    (h : reset cfg s gs rs = some (s0, obs)) :
    s0.stepCount = 0 ∧ (∀ i, s0.dones i = false) ∧
    (∀ i, s0.totalReward i = 0) ∧ obs = get_agent_obs cfg s0 ∧
    (∀ i, s0.onRoad i = true → ∃ k : Fin 4, s0.pos i = gate_key cfg k) ∧
    (∀ i, i < nAgents cfg → s0.onRoad i = false →
      s0.pos i = ((0 : Int), (0 : Int))) :=
  reset_spec cfg s gs rs s0 obs h

theorem C1_witness :
    s0two.stepCount = 0 ∧ s0two.dones 0 = false ∧ s0two.totalReward 0 = 0 ∧
    obs0two = get_agent_obs cfg2 s0two := by
  obtain ⟨h1, h2, h3, h4, _, _⟩ :=
    C1_reset_amended cfg2 (initState cfg2) [0, 1] [0, 0] s0two obs0two (by rfl)
  exact ⟨h1, h2 0, h3 0, h4⟩

/-- **C10.**  Inactive cars keep their stale recorded positions: the
departure pass never rewrites `agent_pos` (a car deactivated at its
destination keeps that cell as its position), a slot never activated by
`reset` records `(0, 0)`, and `get_agent_obs` builds one vector per slot --
inactive slots included -- from the recorded position and the grid alone. -/
theorem C10_stale_positions (cfg : Config) :
    (∀ (s : State) (i : Nat), (departurePass cfg s).pos i = s.pos i) ∧
    (∀ (s : State) (gs : List (Fin 4)) (rs : List (Fin 3)) (s0 : State)
      (obs : List (List ℚ)), reset cfg s gs rs = some (s0, obs) →
      ∀ i, i < nAgents cfg → s0.onRoad i = false →
        s0.pos i = ((0 : Int), (0 : Int))) ∧
    (cfg.full_observable = false → ∀ s : State,
      (get_agent_obs cfg s).length = nAgents cfg ∧
      ∀ i, i < nAgents cfg →
        (get_agent_obs cfg s).get? i =
          some (agent_obs_of cfg s.grid (s.pos i) i)) := by
  refine ⟨?_, ?_, ?_⟩
  · intro s i
    unfold departurePass
    rw [(depFold_spec cfg (List.range (nAgents cfg)) s).1]
  · intro s gs rs s0 obs h i hi hoff
    exact (reset_spec cfg s gs rs s0 obs h).2.2.2.2.2 i hi hoff
  · intro hfull s
    unfold get_agent_obs
    rw [hfull]
    simp only [Bool.false_eq_true, if_false]
    constructor
    · rw [List.length_map, List.length_range]
    · intro i hi
      rw [List.get?_eq_getElem?, List.getElem?_map, List.getElem?_range hi]
      rfl

/-- The observations returned by the `reset` of `s0five`. -/
def obs0five : List (List ℚ) :=
  ((reset cfg5 (initState cfg5) [0, 1, 2, 3, 0] [0, 0, 0, 0]).getD
    (initState cfg5, [])).2

theorem C10_witness :
    (departurePass cfg5 s0five).pos 4 = s0five.pos 4 ∧
    s0five.pos 4 = ((0 : Int), (0 : Int)) ∧
    (get_agent_obs cfg5 s0five).get? 4 =
      some (agent_obs_of cfg5 s0five.grid (s0five.pos 4) 4) := by
  obtain ⟨h1, h2, h3⟩ := C10_stale_positions cfg5
  exact ⟨h1 s0five 4,
    h2 (initState cfg5) [0, 1, 2, 3, 0] [0, 0, 0, 0] s0five obs0five
      (by rfl) 4 (by decide) (by decide),
    (h3 (by decide) s0five).2 4 (by decide)⟩

theorem moveResolve_frame (cfg : Config) (s : State) (i : Nat)
    (curr next : Int × Int) (s1 : State) (r : ℚ)
    (h : moveResolve cfg s i curr next = .ok (s1, r)) :
    s1.dones = s.dones ∧ s1.onRoad = s.onRoad ∧ s1.stepCount = s.stepCount ∧
    s1.totalReward = s.totalReward ∧ s1.currCarsCount = s.currCarsCount ∧
    s1.routes = s.routes ∧ s1.dirs = s.dirs ∧ s1.turned = s.turned := by
  unfold moveResolve at h
  split at h
  · cases h; exact ⟨rfl, rfl, rfl, rfl, rfl, rfl, rfl, rfl⟩
  · split at h
    · cases h; exact ⟨rfl, rfl, rfl, rfl, rfl, rfl, rfl, rfl⟩
    · cases h; exact ⟨rfl, rfl, rfl, rfl, rfl, rfl, rfl, rfl⟩

theorem update_agent_pos_frame (cfg : Config) (s : State) (i : Nat)
    (move : Nat) (s1 : State) (r : ℚ)
    (h : update_agent_pos cfg s i move = .ok (s1, r)) :
    s1.dones = s.dones ∧ s1.onRoad = s.onRoad ∧ s1.stepCount = s.stepCount ∧
    s1.totalReward = s.totalReward ∧ s1.currCarsCount = s.currCarsCount ∧
    s1.routes = s.routes := by
  unfold update_agent_pos at h
  match move, h with
  | 0, h =>
    dsimp only at h
    split at h
    · obtain ⟨e1, e2, e3, e4, e5, e6, _⟩ := moveResolve_frame cfg s i _ _ s1 r h
      exact ⟨e1, e2, e3, e4, e5, e6⟩
    · split at h
      · cases h
      · split at h
        · cases h
        · split at h
          · obtain ⟨e1, e2, e3, e4, e5, e6, _⟩ :=
              moveResolve_frame cfg _ i _ _ s1 r h
            exact ⟨e1, e2, e3, e4, e5, e6⟩
          · obtain ⟨e1, e2, e3, e4, e5, e6, _⟩ :=
              moveResolve_frame cfg s i _ _ s1 r h
            exact ⟨e1, e2, e3, e4, e5, e6⟩
  | 1, h =>
    cases h
    exact ⟨rfl, rfl, rfl, rfl, rfl, rfl⟩

/-- The movement pass never touches the flags, the counters or the
episode totals, whatever the starting state. -/
theorem movePass_frame (cfg : Config) :
    ∀ (acts : List Nat) (start : Nat) (s : State) (rew : Nat → ℚ)
      (s' : State) (rew' : Nat → ℚ),
    movePass cfg s rew start acts = .ok (s', rew') →
    s'.dones = s.dones ∧ s'.onRoad = s.onRoad ∧ s'.stepCount = s.stepCount ∧
    s'.totalReward = s.totalReward ∧ s'.currCarsCount = s.currCarsCount ∧
    s'.routes = s.routes := by
  intro acts
  induction acts with
  | nil =>
    intro start s rew s' rew' h
    rw [movePass_nil] at h
    cases h
    exact ⟨rfl, rfl, rfl, rfl, rfl, rfl⟩
  | cons a rest ih =>
    intro start s rew s' rew' h
    rw [movePass_cons] at h
    split at h
    · match hu : update_agent_pos cfg s start a with
      | .error e => rw [hu] at h; cases h
      | .ok (s1, r) =>
        rw [hu] at h
        obtain ⟨e1, e2, e3, e4, e5, e6⟩ :=
          update_agent_pos_frame cfg s start a s1 r hu
        obtain ⟨f1, f2, f3, f4, f5, f6⟩ := ih (start + 1) s1 _ s' rew' h
        exact ⟨f1.trans e1, f2.trans e2, f3.trans e3, f4.trans e4,
          f5.trans e5, f6.trans e6⟩
    · exact ih (start + 1) s rew s' rew' h

/-- The arrival loop never touches the step counter, the done flags or the
episode totals. -/
theorem arrivalFold_frame (cfg : Config) :
    ∀ (agents : List Nat) (gs : List (Fin 4)) (rs : List (Fin 3)) (s s' : State),
    arrivalFold cfg s agents gs rs = some s' →
    s'.stepCount = s.stepCount ∧ s'.dones = s.dones ∧
    s'.totalReward = s.totalReward := by
  intro agents
  induction agents with
  | nil =>
    intro gs rs s s' h
    cases h
    exact ⟨rfl, rfl, rfl⟩
  | cons i0 rest ih =>
    intro gs rs s s' h
    rw [arrivalFold] at h
    split at h
    · match hsp : spawnLoop cfg i0 true false s gs rs, h with
      | some (s1, gs1, rs1), h =>
        obtain ⟨e1, e2, e3, _, _⟩ :=
          spawnLoop_spec cfg i0 true false gs rs s s1 gs1 rs1 hsp
        obtain ⟨f1, f2, f3⟩ := ih _ _ s1 s' h
        exact ⟨f1.trans e1, f2.trans e2, f3.trans e3⟩
    · exact ih gs rs s s' h

theorem arrivalPass_frame (cfg : Config) (s : State) (u : ℚ)
    (gs : List (Fin 4)) (rs : List (Fin 3)) (s' : State)
    (h : arrivalPass cfg s u gs rs = some s') :
    s'.stepCount = s.stepCount ∧ s'.dones = s.dones ∧
    s'.totalReward = s.totalReward := by
  unfold arrivalPass at h
  split at h
  · exact arrivalFold_frame cfg (List.range (nAgents cfg)) gs rs s s' h
  · cases h; exact ⟨rfl, rfl, rfl⟩

theorem done_check_dones (cfg : Config) (s : State) (i : Nat) :
    (done_check cfg s).dones i =
      if 100 ≤ s.stepCount ∧ i < nAgents cfg then true else s.dones i := by
  unfold done_check
  split
  · next hc =>
    show (if i < nAgents cfg then true else s.dones i) = _
    by_cases hi : i < nAgents cfg
    · have hp : 100 ≤ s.stepCount ∧ i < nAgents cfg := ⟨hc, hi⟩
      rw [if_pos hi, if_pos hp]
    · have hn : ¬(100 ≤ s.stepCount ∧ i < nAgents cfg) := fun hcon => hi hcon.2
      rw [if_neg hi, if_neg hn]
  · next hc =>
    have hn : ¬(100 ≤ s.stepCount ∧ i < nAgents cfg) := fun hcon => hc hcon.1
    rw [if_neg hn]

/-- **C8** (amended): the step counter equals the number of completed
`step()` calls since `reset` -- so it exceeds 100 exactly when `step` is
called more than 100 times -- and termination is sticky: done flags are
never cleared by `step`, and on any call whose resulting counter is at
least 100 every agent's done flag is true. -/
theorem C8_sticky_horizon (cfg : Config) (s : State) (acts : List Nat)
    (u : ℚ) (gs : List (Fin 4)) (rs : List (Fin 3)) (s' : State)
    (obs : List (List ℚ)) (rews : List ℚ) (dns : List Bool)
    (h : step cfg s acts u gs rs = .ok s' obs rews dns) :
    s'.stepCount = s.stepCount + 1 ∧
    (∀ i, s.dones i = true → s'.dones i = true) ∧
    (100 ≤ s'.stepCount → ∀ i, i < nAgents cfg → s'.dones i = true) := by
  unfold step at h
  split at h
  · cases h
  · dsimp only at h
    cases hmv : movePass cfg { s with stepCount := s.stepCount + 1 }
        (fun _ => 0) 0 acts with
    | error se => rw [hmv] at h; cases h
    | ok pr =>
      obtain ⟨s2, rew1⟩ := pr
      rw [hmv] at h
      dsimp only at h
      obtain ⟨m1, _, m3, _, _, _⟩ := movePass_frame cfg acts 0 _ _ s2 rew1 hmv
      cases harr : arrivalPass cfg s2 u gs rs with
      | none => rw [harr] at h; cases h
      | some s3 =>
        rw [harr] at h
        dsimp only at h
        obtain ⟨a1, a2, _⟩ := arrivalPass_frame cfg s2 u gs rs s3 harr
        have hdp1 : (departurePass cfg s3).stepCount = s3.stepCount := by
          unfold departurePass
          exact (depFold_spec cfg (List.range (nAgents cfg)) s3).2.1
        have hdp2 : (departurePass cfg s3).dones = s3.dones := by
          unfold departurePass
          exact (depFold_spec cfg (List.range (nAgents cfg)) s3).2.2.1
        cases h
        have hsc : (finalizePass cfg
            (done_check cfg (departurePass cfg s3)) rew1).1.stepCount =
            s.stepCount + 1 := by
          show (done_check cfg (departurePass cfg s3)).stepCount = _
          rw [done_check_stepCount, hdp1, a1, m3]
        refine ⟨hsc, ?_, ?_⟩
        · intro i hdone
          show (done_check cfg (departurePass cfg s3)).dones i = true
          rw [done_check_dones]
          split
          · rfl
          · rw [hdp2, a2, m1]
            exact hdone
        · intro hge i hi
          rw [hsc] at hge
          show (done_check cfg (departurePass cfg s3)).dones i = true
          rw [done_check_dones]
          have hc : 100 ≤ (departurePass cfg s3).stepCount ∧ i < nAgents cfg := by
            rw [hdp1, a1, m3]
            exact ⟨hge, hi⟩
          rw [if_pos hc]

/-- One all-brake step with a failing arrival draw. -/
def brakeE : StepRand := { acts := [1], u := 1, gs := [], rs := [] }

/-- One all-gas step with a failing arrival draw. -/
def gasE : StepRand := { acts := [0], u := 1, gs := [], rs := [] }

/-- The state after `reset` of `TrafficJunction(n_max=1)` placing the
single car at gate `(7, 0)` with route 1. -/
def s0one : State :=
  ((reset cfg1 (initState cfg1) [0] [0]).getD (initState cfg1, [])).1

set_option maxRecDepth 20000 in
/-- **C8, counterexample.**  From a fresh `reset`, 101 consecutive `step`
calls drive the global step counter to 101 > 100: the counter does exceed
the horizon when stepping continues past termination (which the sticky-done
clause of the claim itself contemplates).  The second conjunct shows the
done flag is set from call 100 onward. -/
theorem C8_counterexample :
    (reset cfg1 (initState cfg1) [0] [0]).isSome = true ∧
    ((runSteps cfg1 s0one (List.replicate 101 brakeE)).map
      fun t => t.stepCount) = some 101 ∧
    ((runSteps cfg1 s0one (List.replicate 100 brakeE)).map
      fun t => (t.stepCount, t.dones 0)) = some (100, true) := by
  refine ⟨by decide, by decide, by decide⟩

def c8sW : State := { initState cfg1 with stepCount := 99 }

def c8res : StepRes := step cfg1 c8sW [1] 1 [] []

def c8s1 : State :=
  match c8res with | .ok t _ _ _ => t | _ => initState cfg1

def c8obs : List (List ℚ) :=
  match c8res with | .ok _ o _ _ => o | _ => []

def c8rews : List ℚ :=
  match c8res with | .ok _ _ r _ => r | _ => []

def c8dns : List Bool :=
  match c8res with | .ok _ _ _ d => d | _ => []

theorem C8_witness : c8s1.stepCount = c8sW.stepCount + 1 ∧
    c8s1.dones 0 = true := by
  obtain ⟨h1, h2, h3⟩ :=
    C8_sticky_horizon cfg1 c8sW [1] 1 [] [] c8s1 c8obs c8rews c8dns (by rfl)
  refine ⟨h1, h3 ?_ 0 (by decide)⟩
  rw [h1]
  decide

/-- The trajectory of the single car of `TrafficJunction(n_max=1)` after
13 GAS steps: it has reached destination `(7, 13)` and departed. -/
def c3mid : Option State := runSteps cfg1 s0one (List.replicate 13 gasE)

/-- One further step on that trajectory. -/
def c3fin : Option State := c3mid.bind fun t => runSteps cfg1 t [brakeE]

/-- **C3, code bug.**  `__reached_dest` never checks `on_the_road`, so the
slot that departed at `(7, 13)` on step 13 (leaving `curr_cars_count = 0`
with no car live) is processed again by the departure pass of step 14,
driving `curr_cars_count` to `-1` -- a negative live-car count, violating
the claim (and spec) that only active cars at their destination are
departed, once each. -/
theorem C3_double_decrement :
    (c3mid.map fun t => (t.currCarsCount, t.onRoad 0,
      decide (t.pos 0 ∈ destinations cfg1))) = some (0, false, true) ∧
    (c3fin.map fun t => (t.currCarsCount, liveCount cfg1 t)) =
      some (-1, 0) := by
  refine ⟨by decide, by decide⟩

/-- A freshly constructed `TrafficJunction(n_max=1)` after `seed(42)`. -/
def c4s42 : State := seed_env 42 (initState cfg1)

/-- **C4, code bug.**  `seed()` stores a fresh `np_random` source, but
`reset`/`step` draw every choice from the process-wide `random` module and
never read it: two runs from the identical seeded state whose global
generator happens to yield different gate draws place the car at different
gates and return different observations, so a fixed seed does not make the
random choices (or outputs) reproducible. -/
theorem C4_seed_unused :
    c4s42.npSeed = some 42 ∧
    ((reset cfg1 c4s42 [0] [0]).map fun r => r.1.pos 0) =
      some ((7 : Int), (0 : Int)) ∧
    ((reset cfg1 c4s42 [1] [0]).map fun r => r.1.pos 0) =
      some ((13 : Int), (7 : Int)) ∧
    ((reset cfg1 c4s42 [0] [0]).map fun r => r.2) ≠
      ((reset cfg1 c4s42 [1] [0]).map fun r => r.2) := by
  refine ⟨by decide, by decide, by decide, by decide⟩

theorem done_check_totalReward (cfg : Config) (s : State) :
    (done_check cfg s).totalReward = s.totalReward := by
  unfold done_check; split <;> rfl

theorem done_check_onRoad_at (cfg : Config) (s : State) (i : Nat) :
    (done_check cfg s).onRoad i = s.onRoad i := by
  rw [done_check_onRoad]

/-- **C6.**  In every normally returning `step`, after the movement,
arrival and departure passes, each car still `on_the_road` receives an
additional reward term of exactly `-0.01` times the resulting global step
counter (not its individual elapsed time) on top of its movement-pass
reward, and each slot's step reward is accumulated into its per-episode
total. -/
theorem C6_time_penalty (cfg : Config) (s : State) (acts : List Nat)
    (u : ℚ) (gs : List (Fin 4)) (rs : List (Fin 3)) (s' : State)
    (obs : List (List ℚ)) (rews : List ℚ) (dns : List Bool)
    (s2 : State) (rew1 : Nat → ℚ)
    (hmv : movePass cfg { s with stepCount := s.stepCount + 1 }
      (fun _ => 0) 0 acts = .ok (s2, rew1))
    (h : step cfg s acts u gs rs = .ok s' obs rews dns) :
    ∀ i, i < nAgents cfg →
      rews.get? i = some (rew1 i +
        (if s'.onRoad i = true then mkRat (-1) 100 * (s'.stepCount : ℚ)
         else 0)) ∧
      s'.totalReward i = s.totalReward i + (rew1 i +
        (if s'.onRoad i = true then mkRat (-1) 100 * (s'.stepCount : ℚ)
         else 0)) := by
  unfold step at h
  split at h
  · cases h
  · dsimp only at h
    rw [hmv] at h
    dsimp only at h
    obtain ⟨_, _, _, m4, _, _⟩ := movePass_frame cfg acts 0 _ _ s2 rew1 hmv
    cases harr : arrivalPass cfg s2 u gs rs with
    | none => rw [harr] at h; cases h
    | some s3 =>
      rw [harr] at h
      dsimp only at h
      obtain ⟨_, _, a3⟩ := arrivalPass_frame cfg s2 u gs rs s3 harr
      have hdp4 : (departurePass cfg s3).totalReward = s3.totalReward := by
        unfold departurePass
        exact (depFold_spec cfg (List.range (nAgents cfg)) s3).2.2.2.1
      cases h
      intro i hi
      have hrew2 : (finalizePass cfg
          (done_check cfg (departurePass cfg s3)) rew1).2 i =
          if i < nAgents cfg ∧
              (done_check cfg (departurePass cfg s3)).onRoad i = true then
            rew1 i + mkRat (-1) 100 *
              (((done_check cfg (departurePass cfg s3)).stepCount : Nat) : ℚ)
          else rew1 i := rfl
      have hget : ((List.range (nAgents cfg)).map
          (finalizePass cfg (done_check cfg (departurePass cfg s3)) rew1).2).get?
          i = some ((finalizePass cfg
            (done_check cfg (departurePass cfg s3)) rew1).2 i) := by
        rw [List.get?_eq_getElem?, List.getElem?_map, List.getElem?_range hi]
        rfl
      have htotal : (finalizePass cfg
          (done_check cfg (departurePass cfg s3)) rew1).1.totalReward i =
          (done_check cfg (departurePass cfg s3)).totalReward i +
            (finalizePass cfg
              (done_check cfg (departurePass cfg s3)) rew1).2 i := by
        show (if i < nAgents cfg then _ else _) = _
        rw [if_pos hi]
        rfl
      have htotbase : (done_check cfg (departurePass cfg s3)).totalReward i =
          s.totalReward i := by
        rw [done_check_totalReward, hdp4, a3, m4]
      constructor
      · rw [hget, hrew2]
        by_cases hon : (done_check cfg (departurePass cfg s3)).onRoad i = true
        · have hp : i < nAgents cfg ∧
              (done_check cfg (departurePass cfg s3)).onRoad i = true :=
            ⟨hi, hon⟩
          rw [if_pos hp]
          show _ = some (rew1 i + (if (done_check cfg
            (departurePass cfg s3)).onRoad i = true then _ else _))
          rw [if_pos hon]
          rfl
        · have hn : ¬(i < nAgents cfg ∧
              (done_check cfg (departurePass cfg s3)).onRoad i = true) :=
            fun hcon => hon hcon.2
          rw [if_neg hn]
          show _ = some (rew1 i + (if (done_check cfg
            (departurePass cfg s3)).onRoad i = true then _ else _))
          rw [if_neg hon, add_zero]
      · rw [htotal, htotbase, hrew2]
        by_cases hon : (done_check cfg (departurePass cfg s3)).onRoad i = true
        · have hp : i < nAgents cfg ∧
              (done_check cfg (departurePass cfg s3)).onRoad i = true :=
            ⟨hi, hon⟩
          rw [if_pos hp]
          show _ = s.totalReward i + (rew1 i + (if (done_check cfg
            (departurePass cfg s3)).onRoad i = true then _ else _))
          rw [if_pos hon]
          rfl
        · have hn : ¬(i < nAgents cfg ∧
              (done_check cfg (departurePass cfg s3)).onRoad i = true) :=
            fun hcon => hon hcon.2
          rw [if_neg hn]
          show _ = s.totalReward i + (rew1 i + (if (done_check cfg
            (departurePass cfg s3)).onRoad i = true then _ else _))
          rw [if_neg hon, add_zero]

/-- The result of one GAS step of `TrafficJunction(n_max=1)` from its
reset state. -/
def c6res : StepRes := step cfg1 s0one [0] 1 [] []

def c6mv : Except State (State × (Nat → ℚ)) :=
  movePass cfg1 { s0one with stepCount := s0one.stepCount + 1 }
    (fun _ => 0) 0 [0]

def c6s2 : State :=
  match c6mv with | .ok (t, _) => t | _ => s0one

def c6rew1 : Nat → ℚ :=
  match c6mv with | .ok (_, r) => r | _ => fun _ => 0

def c6s1 : State :=
  match c6res with | .ok t _ _ _ => t | _ => s0one

def c6obs : List (List ℚ) :=
  match c6res with | .ok _ o _ _ => o | _ => []

def c6rews : List ℚ :=
  match c6res with | .ok _ _ r _ => r | _ => []

def c6dns : List Bool :=
  match c6res with | .ok _ _ _ d => d | _ => []

theorem C6_witness :
    c6rews.get? 0 = some (c6rew1 0 +
      (if c6s1.onRoad 0 = true then mkRat (-1) 100 * (c6s1.stepCount : ℚ)
       else 0)) ∧
    c6s1.totalReward 0 = s0one.totalReward 0 + (c6rew1 0 +
      (if c6s1.onRoad 0 = true then mkRat (-1) 100 * (c6s1.stepCount : ℚ)
       else 0)) :=
  C6_time_penalty cfg1 s0one [0] 1 [] [] c6s1 c6obs c6rews c6dns c6s2 c6rew1
    (by rfl) (by rfl) 0 (by decide)

/-- The four unit direction vectors (the keys of `_turning_places`). -/
def unit_dirs : List (Int × Int) :=
  [((0 : Int), (1 : Int)), (-1, 0), (1, 0), (0, -1)]

theorem turning_places_some (cfg : Config) (d : Int × Int)
    (hd : d ∈ unit_dirs) :
    ∃ tp, turning_places cfg d = some tp := by
  fin_cases hd <;> exact ⟨_, rfl⟩

theorem get_next_move_mem (route : Int) (d : Int × Int) (hd : d ∈ unit_dirs) :
    get_next_move route d ∈ unit_dirs := by
  fin_cases hd <;>
    (unfold get_next_move
     by_cases hr : route = 2 <;> simp [unit_dirs, hr])

theorem turn_cell_some (route : Int) (tp : (Int × Int) × (Int × Int))
    (hr : route = 2 ∨ route = 3) :
    ∃ tc, turn_cell route tp = some tc := by
  rcases hr with hr | hr <;> simp [turn_cell, hr]

theorem moveResolve_isOk (cfg : Config) (s : State) (i : Nat)
    (curr next : Int × Int) :
    ∃ t r, moveResolve cfg s i curr next = Except.ok (t, r) := by
  unfold moveResolve
  split
  · exact ⟨s, cfg.rcoll, rfl⟩
  · split
    · exact ⟨_, 0, rfl⟩
    · exact ⟨s, 0, rfl⟩

/-- A GAS or BRAKE action for a car whose route lies in `{1,2,3}` and whose
direction is one of the four unit vectors is processed without raising, and
the processing neither touches the flags and routes nor produces a
direction outside the four unit vectors. -/
theorem update_agent_pos_no_raise (cfg : Config) (s : State) (i : Nat)
    (move : Nat) (hm : move = 0 ∨ move = 1)
    (hr : s.routes i = 1 ∨ s.routes i = 2 ∨ s.routes i = 3)
    (hd : s.dirs i ∈ unit_dirs) :
    ∃ s1 r, update_agent_pos cfg s i move = .ok (s1, r) ∧
      (∀ k, s1.dirs k = s.dirs k ∨ s1.dirs k ∈ unit_dirs) ∧
      s1.routes = s.routes ∧ s1.dones = s.dones ∧ s1.onRoad = s.onRoad := by
  rcases hm with hm | hm
  · subst hm
    unfold update_agent_pos
    dsimp only
    by_cases hr1 : s.routes i = 1
    · rw [if_pos hr1]
      obtain ⟨t, r, heq⟩ := moveResolve_isOk cfg s i (s.pos i)
        (padd (s.pos i) (s.dirs i))
      obtain ⟨e1, e2, _, _, _, e6, e7, _⟩ :=
        moveResolve_frame cfg s i _ _ t r heq
      exact ⟨t, r, heq, fun k => Or.inl (by rw [e7]), e6, e1, e2⟩
    · rw [if_neg hr1]
      have hr23 : s.routes i = 2 ∨ s.routes i = 3 := by
        rcases hr with h | h | h
        · exact absurd h hr1
        · exact Or.inl h
        · exact Or.inr h
      obtain ⟨tp, htp⟩ := turning_places_some cfg (s.dirs i) hd
      rw [htp]
      dsimp only
      obtain ⟨tc, htc⟩ := turn_cell_some (s.routes i) tp hr23
      rw [htc]
      dsimp only
      split
      · obtain ⟨t, r, heq⟩ := moveResolve_isOk cfg
          ({ s with
             dirs := fun k => if k = i then
               get_next_move (s.routes i) (s.dirs i) else s.dirs k,
             turned := fun k => if k = i then true else s.turned k })
          i (s.pos i) (padd (s.pos i) (get_next_move (s.routes i) (s.dirs i)))
        obtain ⟨e1, e2, _, _, _, e6, e7, _⟩ :=
          moveResolve_frame cfg _ i _ _ t r heq
        refine ⟨t, r, heq, ?_, e6, e1, e2⟩
        intro k
        rw [e7]
        by_cases hk : k = i
        · subst hk
          refine Or.inr ?_
          show (if k = k then get_next_move (s.routes k) (s.dirs k)
            else s.dirs k) ∈ unit_dirs
          rw [if_pos rfl]
          exact get_next_move_mem (s.routes k) (s.dirs k) hd
        · refine Or.inl ?_
          show (if k = i then _ else s.dirs k) = s.dirs k
          rw [if_neg hk]
      · obtain ⟨t, r, heq⟩ := moveResolve_isOk cfg s i (s.pos i)
          (padd (s.pos i) (s.dirs i))
        obtain ⟨e1, e2, _, _, _, e6, e7, _⟩ :=
          moveResolve_frame cfg s i _ _ t r heq
        exact ⟨t, r, heq, fun k => Or.inl (by rw [e7]), e6, e1, e2⟩
  · subst hm
    exact ⟨s, 0, rfl, fun k => Or.inl rfl, rfl, rfl, rfl⟩

/-- The movement pass raises only on an out-of-range action submitted for
an agent that is not done and on the road. -/
theorem movePass_no_raise (cfg : Config) :
    ∀ (acts : List Nat) (start : Nat) (s : State) (rew : Nat → ℚ),
    (∀ j, j < acts.length →
      s.dones (start + j) = false → s.onRoad (start + j) = true →
      (acts.get? j = some 0 ∨ acts.get? j = some 1) ∧
      (s.routes (start + j) = 1 ∨ s.routes (start + j) = 2 ∨
        s.routes (start + j) = 3) ∧
      s.dirs (start + j) ∈ unit_dirs) →
    ∃ out, movePass cfg s rew start acts = .ok out := by
  intro acts
  induction acts with
  | nil =>
    intro start s rew _
    exact ⟨(s, rew), rfl⟩
  | cons a rest ih =>
    intro start s rew H
    rw [movePass_cons]
    split
    · next hact =>
      have h0 := H 0 (by simp) (by simpa using hact.1) (by simpa using hact.2)
      have ha : a = 0 ∨ a = 1 := by
        rcases h0.1 with h | h
        · exact Or.inl (by simpa using h)
        · exact Or.inr (by simpa using h)
      obtain ⟨s1, r, heq, hdirs, hroutes, hdones, honr⟩ :=
        update_agent_pos_no_raise cfg s start a ha
          (by simpa using h0.2.1) (by simpa using h0.2.2)
      rw [heq]
      refine ih (start + 1) s1 _ ?_
      intro j hj hdn hon
      have hidx : start + 1 + j = start + (j + 1) := by omega
      rw [hidx, hdones] at hdn
      rw [hidx, honr] at hon
      have hj1 := H (j + 1) (by simp only [List.length_cons]; omega) hdn hon
      refine ⟨hj1.1, ?_, ?_⟩
      · rw [hidx, hroutes]
        exact hj1.2.1
      · rw [hidx]
        rcases hdirs (start + (j + 1)) with he | he
        · rw [he]
          exact hj1.2.2
        · exact he
    · refine ih (start + 1) s rew ?_
      intro j hj hdn hon
      have hidx : start + 1 + j = start + (j + 1) := by omega
      rw [hidx] at hdn hon ⊢
      exact H (j + 1) (by simp only [List.length_cons]; omega) hdn hon

/-- Recognizer: did `step` escape with an exception? -/
def StepRes.isRaised : StepRes → Bool
  | .raised _ => true
  | _ => false

/-- Recognizer: did `step` return normally? -/
def StepRes.isOk : StepRes → Bool
  | .ok _ _ _ _ => true
  | _ => false

/-- Step counter of the object state carried by a raised result. -/
def raised_stepCount : StepRes → Option Nat
  | .raised t => some t.stepCount
  | _ => none

/-- **C5** (amended): a wrong action-vector length raises before any
mutation, leaving the state unchanged.  An action value outside `{0, 1}`
raises only when it belongs to a slot that is on the road and not done --
and by then the step counter has already been incremented (partial
mutation); the third conjunct shows no raise happens at all when every
active slot's action is 0 or 1 (in particular, invalid actions for
inactive or done agents are silently ignored). -/
theorem C5_validation (cfg : Config) (s : State) (acts : List Nat) (u : ℚ)
    (gs : List (Fin 4)) (rs : List (Fin 3)) :
    (acts.length ≠ nAgents cfg → step cfg s acts u gs rs = .raised s) ∧
    (∀ a tail, acts = a :: tail → acts.length = nAgents cfg →
      s.dones 0 = false → s.onRoad 0 = true → a ≠ 0 → a ≠ 1 →
      step cfg s acts u gs rs =
        .raised { s with stepCount := s.stepCount + 1 }) ∧
    (acts.length = nAgents cfg →
      (∀ k, k < nAgents cfg → s.dones k = false → s.onRoad k = true →
        (acts.get? k = some 0 ∨ acts.get? k = some 1) ∧
        (s.routes k = 1 ∨ s.routes k = 2 ∨ s.routes k = 3) ∧
        s.dirs k ∈ unit_dirs) →
      ∀ se, step cfg s acts u gs rs ≠ .raised se) := by
  refine ⟨?_, ?_, ?_⟩
  · intro hne
    unfold step
    rw [if_pos hne]
  · intro a tail hacts hlen hd0 hon0 ha0 ha1
    subst hacts
    unfold step
    rw [if_neg (fun hcon => hcon hlen)]
    dsimp only
    have hc : ({ s with stepCount := s.stepCount + 1 } : State).dones 0 =
        false ∧ ({ s with stepCount := s.stepCount + 1 } : State).onRoad 0 =
        true := ⟨hd0, hon0⟩
    have hupd : update_agent_pos cfg { s with stepCount := s.stepCount + 1 }
        0 a = Except.error () := by
      match a, ha0, ha1 with
      | 0, h, _ => exact absurd rfl h
      | 1, _, h => exact absurd rfl h
      | Nat.succ (Nat.succ n), _, _ => rfl
    have hmp : movePass cfg { s with stepCount := s.stepCount + 1 }
        (fun _ => 0) 0 (a :: tail) =
        .error { s with stepCount := s.stepCount + 1 } := by
      rw [movePass_cons, if_pos hc, hupd]
    rw [hmp]
  · intro hlen H se hcon
    unfold step at hcon
    rw [if_neg (fun hne => hne hlen)] at hcon
    dsimp only at hcon
    have Hm : ∀ j, j < acts.length → s.dones (0 + j) = false →
        s.onRoad (0 + j) = true →
        (acts.get? j = some 0 ∨ acts.get? j = some 1) ∧
        (s.routes (0 + j) = 1 ∨ s.routes (0 + j) = 2 ∨
          s.routes (0 + j) = 3) ∧
        s.dirs (0 + j) ∈ unit_dirs := by
      intro j hj hdn hon
      have hj0 : 0 + j = j := by omega
      rw [hj0] at hdn hon ⊢
      rw [hlen] at hj
      exact H j hj hdn hon
    obtain ⟨out, hmp⟩ := movePass_no_raise cfg acts 0
      { s with stepCount := s.stepCount + 1 } (fun _ => 0) Hm
    obtain ⟨s2, rew1⟩ := out
    rw [hmp] at hcon
    dsimp only at hcon
    cases harr : arrivalPass cfg s2 u gs rs with
    | none => rw [harr] at hcon; cases hcon
    | some s3 => rw [harr] at hcon; dsimp only at hcon; cases hcon

/-- The result of a `step` whose single active agent receives action 2. -/
def c5res2 : StepRes := step cfg1 s0one [2] 1 [] []

/-- The reachable object state after `reset` of `TrafficJunction(n_max=1)`
and 13 GAS steps: the single car has reached `(7, 13)` and departed, so no
agent is on the road. -/
def c5off : State := c3mid.getD (initState cfg1)

/-- The result of a further `step` whose single, now off-road, agent
receives the invalid action 5. -/
def c5res5 : StepRes := step cfg1 c5off [5] 1 [] []

/-- **C5, counterexample.**  With the single car active, action vector
`[2]` raises -- but the raised-time object state already has step counter
1 while the pre-call state had 0, so simulation state is not left
unchanged.  And the invalid action vector `[5]` submitted after the car
has departed (no agent on the road) does not raise at all: `step` returns
normally. -/
theorem C5_counterexample :
    StepRes.isRaised c5res2 = true ∧
    raised_stepCount c5res2 = some 1 ∧ s0one.stepCount = 0 ∧
    StepRes.isOk c5res5 = true := by
  refine ⟨by decide, by decide, by decide, by decide⟩

theorem C5_witness :
    step cfg1 s0one [0, 0] 1 [] [] = .raised s0one ∧
    step cfg1 s0one [2] 1 [] [] =
      .raised { s0one with stepCount := s0one.stepCount + 1 } ∧
    step cfg1 c5off [5] 1 [] [] ≠ .raised c5off := by
  refine ⟨(C5_validation cfg1 s0one [0, 0] 1 [] []).1 (by decide),
    (C5_validation cfg1 s0one [2] 1 [] []).2.1 2 [] rfl (by decide)
      (by decide) (by decide) (by decide) (by decide),
    (C5_validation cfg1 c5off [5] 1 [] []).2.2 (by decide) ?_ c5off⟩
  intro k hk hd hon
  have hn : nAgents cfg1 = 1 := rfl
  rw [hn] at hk
  have hk0 : k = 0 := by omega
  subst hk0
  exact absurd hon (by decide)

/-- A vacancy-checked move succeeds and produces exactly the two grid
writes of the source. -/
theorem moveResolve_moves (cfg : Config) (s : State) (i : Nat)
    (curr next : Int × Int)
    (hvac : is_cell_vacant cfg s next = true) :
    moveResolve cfg s i curr next =
      .ok ({ s with
        pos := fun k => if k = i then next else s.pos k,
        grid := grid_set (grid_set s.grid curr Cell.empty) next
          (Cell.agent i) }, 0) := by
  have hempty := ((is_cell_vacant_iff cfg s next).mp hvac).2
  have hnc : check_colision cfg s next = false := by
    unfold check_colision
    rw [hempty]
    simp [isAgentCell]
  unfold moveResolve
  rw [hnc]
  simp only [Bool.false_eq_true, if_false, hvac, if_true]
  unfold update_agent_view
  simp

/-- A move whose candidate cell holds another car collides: the state is
returned untouched with the collision penalty. -/
theorem moveResolve_collides (cfg : Config) (s : State) (i : Nat)
    (curr next : Int × Int)
    (hcol : check_colision cfg s next = true) :
    moveResolve cfg s i curr next = .ok (s, cfg.rcoll) := by
  unfold moveResolve
  rw [hcol]
  simp

/-- The movement pass distributes over list append, advancing the slot
index by the length of the first segment. -/
theorem movePass_append (cfg : Config) :
    ∀ (A B : List Nat) (start : Nat) (s : State) (rew : Nat → ℚ),
    movePass cfg s rew start (A ++ B) =
      (match movePass cfg s rew start A with
       | .error e => .error e
       | .ok (s1, r1) => movePass cfg s1 r1 (start + A.length) B) := by
  intro A
  induction A with
  | nil =>
    intro B start s rew
    rfl
  | cons a A1 ih =>
    intro B start s rew
    show movePass cfg s rew start (a :: (A1 ++ B)) = _
    rw [movePass_cons, movePass_cons]
    split
    · cases hu : update_agent_pos cfg s start a with
      | error e => rfl
      | ok pr =>
        obtain ⟨s1, r1⟩ := pr
        dsimp only
        rw [ih B (start + 1) s1 _]
        have hidx : start + 1 + A1.length = start + (A1.length + 1) := by
          omega
        rw [hidx]
        rfl
    · rw [ih B (start + 1) s rew]
      have hidx : start + 1 + A1.length = start + (A1.length + 1) := by omega
      rw [hidx]
      rfl

/-- A segment of agents that are all done or off-road is skipped without
any state or reward change. -/
theorem movePass_skips (cfg : Config) :
    ∀ (A : List Nat) (start : Nat) (s : State) (rew : Nat → ℚ),
    (∀ j, j < A.length →
      ¬(s.dones (start + j) = false ∧ s.onRoad (start + j) = true)) →
    movePass cfg s rew start A = .ok (s, rew) := by
  intro A
  induction A with
  | nil =>
    intro start s rew _
    rfl
  | cons a A1 ih =>
    intro start s rew H
    rw [movePass_cons]
    have h0 : ¬(s.dones start = false ∧ s.onRoad start = true) := by
      have := H 0 (by simp)
      simpa using this
    rw [if_neg h0]
    refine ih (start + 1) s rew ?_
    intro j hj
    have hidx : start + 1 + j = start + (j + 1) := by omega
    rw [hidx]
    exact H (j + 1) (by simp only [List.length_cons]; omega)

/-- **C7.**  Within one movement pass, when two on-road cars with slot
indices `i < j`, both taking GAS on route 1, target the same vacant cell
`c` (and every other slot is off the road), the earlier slot `i` moves
into `c` while the later slot `j` stays in place and receives the
collision penalty `rcoll`: agents are processed sequentially in slot order
against the already-updated grid. -/
theorem C7_earlier_slot_wins (cfg : Config) (s : State) (i j : Nat)
    (c : Int × Int) (A B C : List Nat) (acts : List Nat)
    (hacts : acts = A ++ (0 :: (B ++ (0 :: C))))
    (hA : A.length = i) (hB : i + 1 + B.length = j)
    (hlen : acts.length = nAgents cfg)
    (hri : s.routes i = 1) (hrj : s.routes j = 1)
    (honi : s.onRoad i = true) (honj : s.onRoad j = true)
    (hdi : s.dones i = false) (hdj : s.dones j = false)
    (hother : ∀ k, k < nAgents cfg → k ≠ i → k ≠ j → s.onRoad k = false)
    (hci : padd (s.pos i) (s.dirs i) = c)
    (hcj : padd (s.pos j) (s.dirs j) = c)
    (hvac : is_cell_vacant cfg s c = true) :
    ∃ s2 rew,
      movePass cfg s (fun _ => 0) 0 acts = .ok (s2, rew) ∧
      s2.pos i = c ∧ s2.pos j = s.pos j ∧ s2.onRoad = s.onRoad ∧
      rew j = cfg.rcoll ∧ rew i = 0 := by
  have hji : j ≠ i := by omega
  have hlens : A.length + (B.length + (C.length + 2)) = nAgents cfg := by
    subst hacts
    simp only [List.length_append, List.length_cons] at hlen
    omega
  subst hacts
  set sM : State := { s with
      pos := fun k => if k = i then c else s.pos k,
      grid := grid_set (grid_set s.grid (s.pos i) Cell.empty) c
        (Cell.agent i) } with hsM
  have hskipA : movePass cfg s (fun _ => 0) 0 A = .ok (s, fun _ => 0) := by
    refine movePass_skips cfg A 0 s _ ?_
    intro j1 hj1
    have h0j : 0 + j1 = j1 := by omega
    rw [h0j]
    intro ⟨hd, hon⟩
    rw [hother j1 (by omega) (by omega) (by omega)] at hon
    cases hon
  rw [movePass_append, hskipA]
  dsimp only
  have hidx0 : 0 + A.length = i := by omega
  rw [hidx0, movePass_cons, if_pos ⟨hdi, honi⟩]
  have hupdi : update_agent_pos cfg s i 0 = .ok (sM, 0) := by
    unfold update_agent_pos
    dsimp only
    rw [if_pos hri, hci]
    exact moveResolve_moves cfg s i (s.pos i) c hvac
  rw [hupdi]
  dsimp only
  have hcondB : ∀ j1, j1 < B.length →
      ¬(sM.dones (i + 1 + j1) = false ∧ sM.onRoad (i + 1 + j1) = true) := by
    intro j1 hj1
    intro ⟨hd, hon⟩
    have he : sM.onRoad (i + 1 + j1) = s.onRoad (i + 1 + j1) := rfl
    rw [he, hother _ (by omega) (by omega) (by omega)] at hon
    cases hon
  rw [movePass_append, movePass_skips cfg B (i + 1) sM _ hcondB]
  dsimp only
  rw [hB, movePass_cons]
  have hactj : sM.dones j = false ∧ sM.onRoad j = true := ⟨hdj, honj⟩
  rw [if_pos hactj]
  have hpj : sM.pos j = s.pos j := by
    show (if j = i then c else s.pos j) = s.pos j
    rw [if_neg hji]
  have hupdj : update_agent_pos cfg sM j 0 = .ok (sM, cfg.rcoll) := by
    unfold update_agent_pos
    dsimp only
    have hrj1 : sM.routes j = 1 := hrj
    rw [if_pos hrj1]
    rw [if_neg hji, hcj]
    refine moveResolve_collides cfg sM j (s.pos j) c ?_
    unfold check_colision
    have hvalid := ((is_cell_vacant_iff cfg s c).mp hvac).1
    have hg : sM.grid c = Cell.agent i := by
      show grid_set (grid_set s.grid (s.pos i) Cell.empty) c (Cell.agent i) c
        = _
      rw [grid_set_same]
    rw [hg]
    have hv1 : is_valid cfg c = true := hvalid
    rw [hv1]
    simp [isAgentCell]
  rw [hupdj]
  dsimp only
  have hcondC : ∀ j1, j1 < C.length →
      ¬(sM.dones (j + 1 + j1) = false ∧ sM.onRoad (j + 1 + j1) = true) := by
    intro j1 hj1
    intro ⟨hd, hon⟩
    have he : sM.onRoad (j + 1 + j1) = s.onRoad (j + 1 + j1) := rfl
    rw [he, hother _ (by omega) (by omega) (by omega)] at hon
    cases hon
  rw [movePass_skips cfg C (j + 1) sM _ hcondC]
  refine ⟨sM, _, rfl, ?_, hpj, rfl, ?_, ?_⟩
  · show (if i = i then c else s.pos i) = c
    rw [if_pos rfl]
  · show (if j = j then (if j = i then (0 : ℚ) + 0 else 0) + cfg.rcoll
      else (if j = i then (0 : ℚ) + 0 else 0)) = cfg.rcoll
    rw [if_pos rfl, if_neg hji, zero_add]
  · show (if i = j then (if i = i then (0 : ℚ) + 0 else 0) + cfg.rcoll
      else (if i = i then (0 : ℚ) + 0 else 0)) = 0
    rw [if_neg (fun he => hji he.symm), if_pos rfl, add_zero]

/-- A two-car state on the default grid: car 0 at `(7, 5)` heading right,
car 1 at `(6, 6)` heading down, both on route 1, both targeting `(7, 6)`. -/
def c7s : State :=
  { initState cfg2 with
    pos := fun k => if k = 0 then ((7 : Int), (5 : Int))
      else ((6 : Int), (6 : Int)),
    dirs := fun k => if k = 0 then ((0 : Int), (1 : Int))
      else ((1 : Int), (0 : Int)),
    routes := fun _ => 1,
    onRoad := fun _ => true,
    grid := grid_set (grid_set (create_grid cfg2) ((7 : Int), (5 : Int))
      (Cell.agent 0)) ((6 : Int), (6 : Int)) (Cell.agent 1) }

def c7run : Except State (State × (Nat → ℚ)) :=
  movePass cfg2 c7s (fun _ => 0) 0 [0, 0]

def c7s2 : State := match c7run with | .ok (t, _) => t | _ => c7s

def c7rew : Nat → ℚ := match c7run with | .ok (_, r) => r | _ => fun _ => 0

theorem C7_witness :
    c7s2.pos 0 = ((7 : Int), (6 : Int)) ∧ c7s2.pos 1 = c7s.pos 1 ∧
    c7rew 1 = cfg2.rcoll ∧ c7rew 0 = 0 := by
  obtain ⟨s2, rew, hrun, h1, h2, h3, h4, h5⟩ :=
    C7_earlier_slot_wins cfg2 c7s 0 1 ((7 : Int), (6 : Int)) [] [] [] [0, 0]
      rfl rfl (by decide) (by decide) (by decide) (by decide) (by decide)
      (by decide) (by decide) (by decide)
      (by intro k hk h0 h1
          have hn : nAgents cfg2 = 2 := rfl
          rw [hn] at hk
          exact absurd hk (by omega))
      (by decide) (by decide) (by decide)
  have he : c7run = .ok (s2, rew) := hrun
  have hs2 : c7s2 = s2 := by unfold c7s2; rw [he]
  have hrew : c7rew = rew := by unfold c7rew; rw [he]
  rw [hs2, hrew]
  exact ⟨h1, h2, h4, h5⟩

/-- The inner (column) loop of the 3x3 view of `get_agent_obs`, over an
arbitrary column list. -/
def colFold (g : Int × Int → Cell) (p : Int × Int) (row : Int)
    (L : List Int) (m : Nat × Nat → ℚ) : Nat × Nat → ℚ :=
  L.foldl
    (fun m1 col =>
      if isAgentCell (g (row, col)) then
        Function.update m1 ((row - (p.1 - 1)).toNat, (col - (p.2 - 1)).toNat)
          (1 : ℚ)
      else m1) m

/-- The outer (row) loop of the 3x3 view of `get_agent_obs`, over an
arbitrary row list. -/
def rowFold (cfg : Config) (g : Int × Int → Cell) (p : Int × Int)
    (L : List Int) (m : Nat × Nat → ℚ) : Nat × Nat → ℚ :=
  L.foldl (fun m row => colFold g p row (mask_cols cfg p) m) m

theorem obs_mask_eq_rowFold (cfg : Config) (g : Int × Int → Cell)
    (p : Int × Int) :
    obs_mask cfg g p = rowFold cfg g p (mask_rows cfg p) (fun _ => 0) := rfl

theorem colFold_cons (g : Int × Int → Cell) (p : Int × Int) (row c : Int)
    (L : List Int) (m : Nat × Nat → ℚ) :
    colFold g p row (c :: L) m =
      colFold g p row L
        (if isAgentCell (g (row, c)) then
          Function.update m ((row - (p.1 - 1)).toNat, (c - (p.2 - 1)).toNat)
            (1 : ℚ)
        else m) := rfl

theorem colFold_not (g : Int × Int → Cell) (p : Int × Int) (row : Int)
    (q : Nat × Nat) :
    ∀ (L : List Int) (m : Nat × Nat → ℚ),
      (∀ col ∈ L, isAgentCell (g (row, col)) = true →
        ((row - (p.1 - 1)).toNat, (col - (p.2 - 1)).toNat) ≠ q) →
      colFold g p row L m q = m q := by
  intro L
  induction L with
  | nil => intro m h; rfl
  | cons c L ih =>
    intro m h
    rw [colFold_cons,
      ih _ (fun col hc hA => h col (List.mem_cons_of_mem _ hc) hA)]
    cases hA : isAgentCell (g (row, c)) with
    | false => simp [hA]
    | true =>
      have hk := h c (List.mem_cons_self c L) hA
      rw [if_pos rfl, Function.update_noteq (Ne.symm hk)]

theorem colFold_persists (g : Int × Int → Cell) (p : Int × Int) (row : Int)
    (q : Nat × Nat) :
    ∀ (L : List Int) (m : Nat × Nat → ℚ),
      m q = 1 → colFold g p row L m q = 1 := by
  intro L
  induction L with
  | nil => intro m h; exact h
  | cons c L ih =>
    intro m h
    rw [colFold_cons]
    apply ih
    cases hA : isAgentCell (g (row, c)) with
    | false => simp [hA, h]
    | true =>
      rw [if_pos rfl]
      by_cases hq : q = ((row - (p.1 - 1)).toNat, (c - (p.2 - 1)).toNat)
      · rw [hq, Function.update_same]
      · rw [Function.update_noteq hq, h]

theorem colFold_one (g : Int × Int → Cell) (p : Int × Int) (row : Int)
    (q : Nat × Nat) :
    ∀ (L : List Int) (m : Nat × Nat → ℚ),
      (∃ col ∈ L, isAgentCell (g (row, col)) = true ∧
        ((row - (p.1 - 1)).toNat, (col - (p.2 - 1)).toNat) = q) →
      colFold g p row L m q = 1 := by
  intro L
  induction L with
  | nil =>
    intro m h
    obtain ⟨col, hc, _⟩ := h
    cases hc
  | cons c L ih =>
    intro m h
    obtain ⟨col, hc, hA, hk⟩ := h
    rw [colFold_cons]
    rcases List.mem_cons.mp hc with rfl | hc2
    · apply colFold_persists
      rw [if_pos hA, hk, Function.update_same]
    · exact ih _ ⟨col, hc2, hA, hk⟩

theorem rowFold_cons (cfg : Config) (g : Int × Int → Cell) (p : Int × Int)
    (r : Int) (L : List Int) (m : Nat × Nat → ℚ) :
    rowFold cfg g p (r :: L) m =
      rowFold cfg g p L (colFold g p r (mask_cols cfg p) m) := rfl

theorem rowFold_not (cfg : Config) (g : Int × Int → Cell) (p : Int × Int)
    (q : Nat × Nat) :
    ∀ (L : List Int) (m : Nat × Nat → ℚ),
      (∀ row ∈ L, ∀ col ∈ mask_cols cfg p,
        isAgentCell (g (row, col)) = true →
        ((row - (p.1 - 1)).toNat, (col - (p.2 - 1)).toNat) ≠ q) →
      rowFold cfg g p L m q = m q := by
  intro L
  induction L with
  | nil => intro m h; rfl
  | cons r L ih =>
    intro m h
    rw [rowFold_cons,
      ih _ (fun row hr => h row (List.mem_cons_of_mem _ hr))]
    exact colFold_not g p r q _ m (h r (List.mem_cons_self r L))

theorem rowFold_persists (cfg : Config) (g : Int × Int → Cell)
    (p : Int × Int) (q : Nat × Nat) :
    ∀ (L : List Int) (m : Nat × Nat → ℚ),
      m q = 1 → rowFold cfg g p L m q = 1 := by
  intro L
  induction L with
  | nil => intro m h; exact h
  | cons r L ih =>
    intro m h
    rw [rowFold_cons]
    exact ih _ (colFold_persists g p r q _ m h)

theorem rowFold_one (cfg : Config) (g : Int × Int → Cell) (p : Int × Int)
    (q : Nat × Nat) :
    ∀ (L : List Int) (m : Nat × Nat → ℚ),
      (∃ row ∈ L, ∃ col ∈ mask_cols cfg p,
        isAgentCell (g (row, col)) = true ∧
        ((row - (p.1 - 1)).toNat, (col - (p.2 - 1)).toNat) = q) →
      rowFold cfg g p L m q = 1 := by
  intro L
  induction L with
  | nil =>
    intro m h
    obtain ⟨row, hr, _⟩ := h
    cases hr
  | cons r L ih =>
    intro m h
    obtain ⟨row, hr, col, hc, hA, hk⟩ := h
    rw [rowFold_cons]
    rcases List.mem_cons.mp hr with rfl | hr2
    · exact rowFold_persists cfg g p q _ _
        (colFold_one g p row q _ m ⟨col, hc, hA, hk⟩)
    · exact ih _ ⟨row, hr2, col, hc, hA, hk⟩

theorem mem_intRange (lo hi x : Int) :
    x ∈ intRange lo hi ↔ lo ≤ x ∧ x < hi := by
  unfold intRange
  simp only [List.mem_map, List.mem_range]
  constructor
  · rintro ⟨k, hk, rfl⟩
    omega
  · intro ⟨h1, h2⟩
    exact ⟨(x - lo).toNat, by omega, by omega⟩

/-- Pointwise value of the filled 3x3 view array: entry `(a, b)` is 1
exactly when the absolute cell `(pos[0] - 1 + a, pos[1] - 1 + b)` is inside
the grid bounds and holds a car; clipped cells contribute nothing. -/
theorem obs_mask_spec (cfg : Config) (g : Int × Int → Cell) (p : Int × Int)
    (a b : Nat) (ha : a < 3) (hb : b < 3) :
    obs_mask cfg g p (a, b) =
      if 0 ≤ p.1 - 1 + (a : Int) ∧ p.1 - 1 + (a : Int) < (cfg.rows : Int) ∧
          0 ≤ p.2 - 1 + (b : Int) ∧ p.2 - 1 + (b : Int) < (cfg.cols : Int) ∧
          isAgentCell (g (p.1 - 1 + (a : Int), p.2 - 1 + (b : Int))) = true
        then 1 else 0 := by
  rw [obs_mask_eq_rowFold]
  by_cases hc : 0 ≤ p.1 - 1 + (a : Int) ∧
      p.1 - 1 + (a : Int) < (cfg.rows : Int) ∧
      0 ≤ p.2 - 1 + (b : Int) ∧ p.2 - 1 + (b : Int) < (cfg.cols : Int) ∧
      isAgentCell (g (p.1 - 1 + (a : Int), p.2 - 1 + (b : Int))) = true
  · rw [if_pos hc]
    obtain ⟨h1, h2, h3, h4, h5⟩ := hc
    apply rowFold_one
    refine ⟨p.1 - 1 + (a : Int), ?_, p.2 - 1 + (b : Int), ?_, h5, ?_⟩
    · unfold mask_rows
      rw [mem_intRange]
      omega
    · unfold mask_cols
      rw [mem_intRange]
      omega
    · simp only [Prod.mk.injEq]
      refine ⟨?_, ?_⟩ <;> omega
  · rw [if_neg hc]
    have H : ∀ row ∈ mask_rows cfg p, ∀ col ∈ mask_cols cfg p,
        isAgentCell (g (row, col)) = true →
        ((row - (p.1 - 1)).toNat, (col - (p.2 - 1)).toNat) ≠ (a, b) := by
      intro row hrow col hcol hA hk
      unfold mask_rows at hrow
      rw [mem_intRange] at hrow
      unfold mask_cols at hcol
      rw [mem_intRange] at hcol
      simp only [Prod.mk.injEq] at hk
      have hrow2 : row = p.1 - 1 + (a : Int) := by omega
      have hcol2 : col = p.2 - 1 + (b : Int) := by omega
      apply hc
      refine ⟨by omega, by omega, by omega, by omega, ?_⟩
      rw [← hrow2, ← hcol2]
      exact hA
    rw [rowFold_not cfg g p (a, b) (mask_rows cfg p) _ H]

/-- The spec's wording of one 3x3-mask entry, by flat index `(ab.1, ab.2)`:
center forced to 0, out-of-bounds cells contribute no occupancy signal,
in-bounds cells report car presence. -/
def mask_entry_spec (cfg : Config) (g : Int × Int → Cell) (p : Int × Int)
    (ab : Nat × Nat) : ℚ :=
  if ab = ((1 : Nat), (1 : Nat)) then 0
  else if 0 ≤ p.1 - 1 + (ab.1 : Int) ∧
      p.1 - 1 + (ab.1 : Int) < (cfg.rows : Int) ∧
      0 ≤ p.2 - 1 + (ab.2 : Int) ∧ p.2 - 1 + (ab.2 : Int) < (cfg.cols : Int) ∧
      isAgentCell (g (p.1 - 1 + (ab.1 : Int), p.2 - 1 + (ab.2 : Int))) = true
    then 1 else 0

/-- The per-agent observation vector exactly as the claim words it
(spec-modelled, not from the source): one-hot id of length `n_agents`,
flattened clipped 3x3 mask with forced-zero center, then the row and
column positions each divided by the corresponding grid extent
(`rows` and `cols`). -/
def agent_obs_claim (cfg : Config) (g : Int × Int → Cell) (p : Int × Int)
    (i : Nat) : List ℚ :=
  ((List.range (nAgents cfg)).map fun k => if k = i then (1 : ℚ) else 0) ++
    mask_keys.map (mask_entry_spec cfg g p) ++
    [mkRat p.1 cfg.rows, mkRat p.2 cfg.cols]

/-- As `agent_obs_claim`, but with the column position divided by
`cols - 1` — the divisor the source actually uses. -/
def agent_obs_amended (cfg : Config) (g : Int × Int → Cell) (p : Int × Int)
    (i : Nat) : List ℚ :=
  ((List.range (nAgents cfg)).map fun k => if k = i then (1 : ℚ) else 0) ++
    mask_keys.map (mask_entry_spec cfg g p) ++
    [mkRat p.1 cfg.rows, mkRat p.2 (cfg.cols - 1)]

theorem mask_entry_eq (cfg : Config) (g : Int × Int → Cell) (p : Int × Int)
    (ab : Nat × Nat) (h1 : ab.1 < 3) (h2 : ab.2 < 3) :
    Function.update (obs_mask cfg g p) ((1 : Nat), (1 : Nat)) (0 : ℚ) ab =
      mask_entry_spec cfg g p ab := by
  obtain ⟨a, b⟩ := ab
  by_cases hc : ((a : Nat), (b : Nat)) = ((1 : Nat), (1 : Nat))
  · rw [hc, Function.update_same]
    unfold mask_entry_spec
    rw [if_pos rfl]
  · rw [Function.update_noteq hc]
    unfold mask_entry_spec
    rw [if_neg hc]
    exact obs_mask_spec cfg g p a b h1 h2

theorem agent_obs_of_eq_amended (cfg : Config) (g : Int × Int → Cell)
    (p : Int × Int) (i : Nat) :
    agent_obs_of cfg g p i = agent_obs_amended cfg g p i := by
  unfold agent_obs_of agent_obs_amended
  dsimp only
  congr 1
  congr 1
  apply List.map_congr_left
  intro ab hab
  fin_cases hab <;>
    exact mask_entry_eq cfg g p _ (by decide) (by decide)

/-- **C9.**  In non-full-observability mode each agent slot's observation
vector is the one-hot agent id, then the flattened clipped 3x3 neighborhood
mask (center forced to 0, out-of-bounds cells contributing nothing), then
the row position divided by `rows` — but the column position divided by
`cols - 1`, not by the column extent `cols` the claim names. -/
theorem C9_agent_obs (cfg : Config) (s : State)
    (hobs : cfg.full_observable = false) :
    get_agent_obs cfg s =
      (List.range (nAgents cfg)).map fun i =>
        agent_obs_amended cfg s.grid (s.pos i) i := by
  simp only [get_agent_obs, hobs, Bool.false_eq_true, if_false]
  exact List.map_congr_left
    fun i _ => agent_obs_of_eq_amended cfg s.grid (s.pos i) i

/-- A one-car state on the default 14x14 grid with the car at `(7, 13)`,
the rightmost road cell. -/
def c9s : State :=
  { initState cfg1 with
    pos := fun _ => ((7 : Int), (13 : Int)),
    onRoad := fun _ => true,
    routes := fun _ => 1,
    grid := grid_set (create_grid cfg1) ((7 : Int), (13 : Int))
      (Cell.agent 0) }

/-- **C9, counterexample.**  For the car at `(7, 13)` the code's last
observation entry is `13 / (14 - 1) = 1`, while the claim's
divide-by-the-grid-extent reading gives `13 / 14`: the produced vectors
differ. -/
theorem C9_counterexample :
    get_agent_obs cfg1 c9s ≠
      (List.range (nAgents cfg1)).map fun i =>
        agent_obs_claim cfg1 c9s.grid (c9s.pos i) i := by
  decide

theorem C9_witness :
    cfg1.full_observable = false ∧
    get_agent_obs cfg1 c9s =
      (List.range (nAgents cfg1)).map fun i =>
        agent_obs_amended cfg1 c9s.grid (c9s.pos i) i :=
  ⟨rfl, C9_agent_obs cfg1 c9s rfl⟩

end TJ
